import Mathlib

/-!
# go-peerflix-server: a shallow embedding of `main.go`

Go strings are byte sequences, so they are lists of bytes here.  The HTTP
handlers of `main.go` become functions from a request and the state of the
torrent client to the response they build together with the trace of the
effects they perform (engine calls, goroutines started, log lines, file
operations).  The standard-library functions the handlers call
(`strings.Split`, `strings.Join`, `strings.Compare`, `strings.HasPrefix`,
`base64.URLEncoding`, `http.SetCookie`, `http.Redirect`, `sort.Slice`, ...)
are given executable models of their documented behaviour.
-/

namespace Peerflix

/-! ## Go strings -/

/-- One byte. -/
abbrev Byte := Fin 256

/-- A Go `string`: an immutable sequence of bytes. -/
abbrev GoString := List Byte

/-- The bytes of a string literal of the source (all of them are ASCII, one byte per
character). -/
def lit (s : String) : GoString := s.toList.map (fun c => Fin.ofNat c.toNat)

/-- The byte `':'`. -/
def colon : Byte := 58

/-- The byte `'/'`. -/
def slash : Byte := 47

/-- Model of `strings.HasPrefix(s, prefix)`. -/
def HasPrefix (s pre : GoString) : Bool := pre.isPrefixOf s

/-- Model of `strings.HasSuffix(s, suffix)`. -/
def HasSuffix (s suf : GoString) : Bool := suf.isSuffixOf s

/-- Model of `strings.Split(s, sep)` for a separator of one byte, which is what
both call sites in `main.go` pass (`":"` and `"/"`): the pieces of `s` between
consecutive occurrences of `sep`; always at least one piece. -/
def Split : GoString → Byte → List GoString
  | [], _ => [[]]
  | c :: cs, sep =>
    if c = sep then [] :: Split cs sep
    else
      match Split cs sep with
      | [] => [[c]]
      | p :: ps => (c :: p) :: ps

/-- Model of `strings.Join(elems, sep)`. -/
def Join : List GoString → GoString → GoString
  | [], _ => []
  | [p], _ => p
  | p :: q :: ps, sep => p ++ sep ++ Join (q :: ps) sep

/-- Model of `strings.Compare(a, b)`: byte-wise lexicographic comparison,
`-1`, `0` or `+1`. -/
def Compare : GoString → GoString → Int
  | [], [] => 0
  | [], _ :: _ => -1
  | _ :: _, [] => 1
  | a :: as, b :: bs =>
    if a < b then -1 else if b < a then 1 else Compare as bs

/-! ## Errors -/

/-- The Go `error` values the program tells apart. -/
inductive GoError
  | ErrNoCookie
  | CorruptInputError
  | other (msg : GoString)
  deriving DecidableEq, Repr

/-- Model of `err.Error()`. -/
def GoError.Error : GoError → GoString
  | .ErrNoCookie => lit "http: named cookie not present"
  | .CorruptInputError => lit "illegal base64 data"
  | .other msg => msg

/-! ## `encoding/base64`: `base64.URLEncoding` -/

/-- The URL-safe alphabet of `base64.URLEncoding`. -/
def encodeURL : GoString :=
  lit "ABCDEFGHIJKLMNOPQRSTUVWXYZabcdefghijklmnopqrstuvwxyz0123456789-_"

/-- The padding character `'='` (`base64.StdPadding`). -/
def padChar : Byte := 61

/-- Model of `enc.encode[i]`. -/
def encodeChar (i : Nat) : Byte := encodeURL.getD i 0

/-- Model of `enc.decodeMap[c]`: the index of `c` in the alphabet, `0xff` for a byte
outside it. -/
def decodeMap (c : Byte) : Nat :=
  let i := encodeURL.indexOf c
  if i < 64 then i else 0xff

/-- Model of `base64.URLEncoding.EncodeToString`: three bytes become four
characters; a final group of one or two bytes is padded with `'='`. -/
def EncodeToString : GoString → GoString
  | b0 :: b1 :: b2 :: rest =>
    let val := b0.val <<< 16 ||| b1.val <<< 8 ||| b2.val
    encodeChar (val >>> 18 &&& 0x3F) :: encodeChar (val >>> 12 &&& 0x3F) ::
      encodeChar (val >>> 6 &&& 0x3F) :: encodeChar (val &&& 0x3F) :: EncodeToString rest
  | [b0, b1] =>
    let val := b0.val <<< 16 ||| b1.val <<< 8
    [encodeChar (val >>> 18 &&& 0x3F), encodeChar (val >>> 12 &&& 0x3F),
      encodeChar (val >>> 6 &&& 0x3F), padChar]
  | [b0] =>
    let val := b0.val <<< 16
    [encodeChar (val >>> 18 &&& 0x3F), encodeChar (val >>> 12 &&& 0x3F), padChar, padChar]
  | [] => []

/-- Whether a byte is `'\n'` or `'\r'`, which the decoder skips. -/
def isNewline (c : Byte) : Bool := c = 10 || c = 13

/-- The loop `for si < len(src) && (src[si] == '\n' || src[si] == '\r') { si++ }`. -/
def skipNewlines : GoString → GoString
  | [] => []
  | c :: cs => if isNewline c then skipNewlines cs else c :: cs

/-- The end of `decodeQuantum`: the `dlen` six-bit digits in `dbuf` (missing ones are
zero) are packed into 24 bits, of which `dlen - 1` bytes are output. -/
def quantumBytes (dbuf : List Nat) : GoString :=
  let val := dbuf.getD 0 0 <<< 18 ||| dbuf.getD 1 0 <<< 12 ||| dbuf.getD 2 0 <<< 6 ||| dbuf.getD 3 0
  ([Fin.ofNat (val >>> 16), Fin.ofNat (val >>> 8), Fin.ofNat val] : GoString).take (dbuf.length - 1)

/-- The padding branch of `decodeQuantum` once the first `'='` has been read with `j`
digits in `dbuf`: fewer than two digits is an error, with two digits a second `'='` is
required (newlines may precede it), and nothing but newlines may follow. -/
def decodePadding (dbuf : List Nat) (rest : GoString) : Except GoError GoString :=
  if dbuf.length < 2 then .error .CorruptInputError
  else
    let afterPad : Option GoString :=
      if dbuf.length = 2 then
        match skipNewlines rest with
        | [] => none
        | d :: ds => if d = padChar then some ds else none
      else some rest
    match afterPad with
    | none => .error .CorruptInputError
    | some tail =>
      if skipNewlines tail = [] then .ok (quantumBytes dbuf) else .error .CorruptInputError

/-- Model of the loop of `Encoding.Decode` around `decodeQuantum` (non-strict, padded):
`dbuf` holds the digits of the current quantum read so far.  A byte of the alphabet is
appended to the quantum, which is output when it has four digits; `'\n'` and `'\r'` are
skipped; `'='` starts the padding; anything else is corrupt input, and so is input that
ends inside a quantum. -/
def decodeLoop (dbuf : List Nat) : GoString → Except GoError GoString
  | [] => if dbuf.length = 0 then .ok [] else .error .CorruptInputError
  | c :: cs =>
    let out := decodeMap c
    if out ≠ 0xff then
      if dbuf.length = 3 then
        match decodeLoop [] cs with
        | .ok more => .ok (quantumBytes (dbuf ++ [out]) ++ more)
        | .error e => .error e
      else decodeLoop (dbuf ++ [out]) cs
    else if isNewline c then decodeLoop dbuf cs
    else if c ≠ padChar then .error .CorruptInputError
    else decodePadding dbuf cs

/-- Model of `base64.URLEncoding.DecodeString`. -/
def DecodeString (s : GoString) : Except GoError GoString := decodeLoop [] s

/-! ## `net/http`: cookies, requests, responses -/

/-- The fields of `http.Cookie` the program sets or reads; `Expires` in Unix seconds,
`none` for the zero time. -/
structure Cookie where
  Name : GoString
  Value : GoString
  MaxAge : Int := 0
  Expires : Option Int := none
  deriving DecidableEq, Repr

/-- A request as the handlers see it: the method, `r.URL.Path`, the cookies parsed
from the Cookie header, and what `r.ParseForm()` yields (its error, and the form's
key/value pairs in order). -/
structure Request where
  Method : GoString := lit "GET"
  Path : GoString := lit "/"
  cookies : List Cookie := []
  parseFormError : Option GoError := none
  form : List (GoString × GoString) := []

/-- Model of `r.Cookie(name)`: the first cookie of that name, `ErrNoCookie` when there
is none. -/
def Request.Cookie (r : Request) (name : GoString) : Except GoError Cookie :=
  if name = [] then .error .ErrNoCookie
  else
    match r.cookies.find? (fun c => c.Name = name) with
    | some c => .ok c
    | none => .error .ErrNoCookie

/-- Model of `r.FormValue(key)` after `r.ParseForm()`: the first value of `key`, `""`
when the form has none. -/
def Request.FormValue (r : Request) (key : GoString) : GoString :=
  match r.form.find? (fun kv => kv.1 = key) with
  | some kv => kv.2
  | none => []

/-- A file of a transfer (`torrent.File`). -/
structure File where
  Path : GoString
  DisplayPath : GoString
  deriving DecidableEq, Repr

/-- Model of `metainfo.Hash`, a `[20]byte`. -/
structure Hash where
  bytes : GoString
  size : bytes.length = 20
  deriving DecidableEq, Repr

/-- What the program reads of a transfer (`torrent.Torrent`).  `Files` is `none` while
the metadata of the transfer has not arrived, which is the state every transfer added
by magnet link starts in: the engine's `t.Files()` then dereferences a nil pointer. -/
structure Torrent where
  InfoHash : Hash
  Name : GoString
  Files : Option (List File)
  deriving DecidableEq, Repr

/-- The struct `indexData` handed to the index template. -/
structure indexData where
  FlashMessage : GoString
  FlashType : GoString
  Torrents : List Torrent
  deriving DecidableEq, Repr

/-- The status codes `http.ServeContent` can answer with. -/
inductive ServeStatus
  | OK
  | PartialContent
  | NotModified
  | PreconditionFailed
  | RequestedRangeNotSatisfiable
  | InternalServerError
  deriving DecidableEq, Repr

/-- The numeric code of a `ServeStatus`. -/
def ServeStatus.code : ServeStatus → Nat
  | .OK => 200
  | .PartialContent => 206
  | .NotModified => 304
  | .PreconditionFailed => 412
  | .RequestedRangeNotSatisfiable => 416
  | .InternalServerError => 500

/-- The response a handler builds through its `http.ResponseWriter`: the headers set
with `Header().Set`, the `Set-Cookie` lines added by `http.SetCookie` (in order), the
status of the first `WriteHeader`, the text written, and the template executions
written into it. -/
structure ResponseWriter where
  header : List (GoString × GoString) := []
  cookies : List Cookie := []
  status : Option Nat := none
  body : List GoString := []
  rendered : List (GoString × indexData) := []
  deriving DecidableEq, Repr

/-- Model of `w.Header().Set(key, value)`. -/
def ResponseWriter.Set (w : ResponseWriter) (key value : GoString) : ResponseWriter :=
  { w with header := w.header.filter (fun kv => kv.1 ≠ key) ++ [(key, value)] }

/-- Model of `w.Header().Get(key)`. -/
def ResponseWriter.Get (w : ResponseWriter) (key : GoString) : Option GoString :=
  (w.header.find? (fun kv => kv.1 = key)).map (fun kv => kv.2)

/-- Model of `w.WriteHeader(code)`: only the first call sets the status. -/
def ResponseWriter.WriteHeader (w : ResponseWriter) (code : Nat) : ResponseWriter :=
  match w.status with
  | none => { w with status := some code }
  | some _ => w

/-- Whether a byte is an ASCII letter. -/
def isAlpha (c : Byte) : Bool := (65 ≤ c.val && c.val ≤ 90) || (97 ≤ c.val && c.val ≤ 122)

/-- Model of `validCookieValueByte` in `net/http`: printable ASCII other than `'"'`,
`';'` and the backslash. -/
def validCookieValueByte (b : Byte) : Bool :=
  decide (0x20 ≤ b.val) && decide (b.val < 0x7f) && b != 34 && b != 59 && b != 92

/-- Model of `sanitizeCookieValue` in `net/http` (for a cookie that is not marked
quoted): the bytes that are not valid in a cookie value are dropped, and a value that
holds a space or a comma is put between double quotes. -/
def sanitizeCookieValue (v : GoString) : GoString :=
  let v := v.filter validCookieValueByte
  if v.length = 0 then v
  else if (32 : Byte) ∈ v ∨ (44 : Byte) ∈ v then [34] ++ v ++ [34]
  else v

/-- Whether a byte may stand in a token (`httpguts.IsTokenRune`): a letter, a digit or
one of the fifteen marks of RFC 7230. -/
def isTokenByte (b : Byte) : Bool :=
  isAlpha b || (decide (48 ≤ b.val) && decide (b.val ≤ 57)) ||
    ([33, 35, 36, 37, 38, 39, 42, 43, 45, 46, 94, 95, 96, 124, 126] : List Byte).contains b

/-- Model of `isCookieNameValid` in `net/http`: a non-empty token. -/
def isCookieNameValid (name : GoString) : Bool := name != [] && name.all isTokenByte

/-- Model of `parseCookieValue` in `net/http` as `readCookies` calls it: surrounding
double quotes are stripped, and a value that then holds a byte that is not valid is
refused. -/
def parseCookieValue (raw : GoString) : Option GoString :=
  let raw :=
    if 1 < raw.length ∧ raw.head? = some 34 ∧ raw.getLast? = some 34 then (raw.drop 1).dropLast
    else raw
  if raw.all validCookieValueByte then some raw else none

/-- Model of `readCookies` in `net/http` on the name/value pairs of the `Cookie` header:
the pairs with a valid name and a value that parses, with the value parsed. -/
def readCookies (sent : List Cookie) : List Cookie :=
  sent.filterMap (fun c =>
    if isCookieNameValid c.Name then
      (parseCookieValue c.Value).map (fun v => { Name := c.Name, Value := v })
    else none)

/-- Model of `http.SetCookie(w, cookie)`: one more `Set-Cookie` line, which is
`cookie.String()`: nothing for an invalid name, and otherwise the cookie with its value
sanitised.  (The line is kept as a struct; the log line `net/http` prints when it drops
bytes is not modelled.) -/
def SetCookie (w : ResponseWriter) (c : Cookie) : ResponseWriter :=
  if isCookieNameValid c.Name then
    { w with cookies := w.cookies ++ [{ c with Value := sanitizeCookieValue c.Value }] }
  else w

/-- Model of `http.Error(w, msg, code)`. -/
def Error (w : ResponseWriter) (msg : GoString) (code : Nat) : ResponseWriter :=
  let w := w.Set (lit "Content-Type") (lit "text/plain; charset=utf-8")
  let w := w.Set (lit "X-Content-Type-Options") (lit "nosniff")
  let w := w.WriteHeader code
  { w with body := w.body ++ [msg ++ lit "\n"] }

/-- Model of `http.NotFound(w, r)`. -/
def NotFound (w : ResponseWriter) (_r : Request) : ResponseWriter :=
  Error w (lit "404 page not found") 404

/-! ### `http.Redirect` -/

/-- First result of `path.Split`: the path up to and including its last `'/'`. -/
def pathDir (p : GoString) : GoString := (p.reverse.dropWhile (fun c => c ≠ slash)).reverse

/-- The element loop of `path.Clean`: `out` is the stack of kept elements, last one
first. -/
def cleanElems (rooted : Bool) : List GoString → List GoString → List GoString
  | [], out => out.reverse
  | e :: es, out =>
    if e = [] ∨ e = lit "." then cleanElems rooted es out
    else if e = lit ".." then
      match out with
      | top :: below =>
        if top = lit ".." then cleanElems rooted es (e :: out) else cleanElems rooted es below
      | [] => if rooted then cleanElems rooted es [] else cleanElems rooted es [e]
    else cleanElems rooted es (e :: out)

/-- Model of `path.Clean`. -/
def Clean (p : GoString) : GoString :=
  let rooted := HasPrefix p (lit "/")
  let kept := Join (cleanElems rooted (Split p slash) []) (lit "/")
  let out := if rooted then lit "/" ++ kept else kept
  if out = [] then lit "." else out

/-- Whether `url.Parse` finds a scheme (`letter (letter | digit | + | - | .)* ":"`) or a
host (`//` first, but not `///`) in the reference; `http.Redirect` leaves such a target
as it is. -/
def hasSchemeOrHost (url : GoString) : Bool :=
  (HasPrefix url (lit "//") && !HasPrefix url (lit "///")) ||
    (match url with
     | [] => false
     | c :: _ =>
       isAlpha c &&
         (url.dropWhile (fun d =>
            isAlpha d || (48 ≤ d.val && d.val ≤ 57) || d = 43 || d = 45 || d = 46)).head? = some colon)

/-- Model of `hexEscapeNonASCII`: a byte from `0x80` up becomes `%` and its two
hexadecimal digits. -/
def hexEscapeNonASCII : GoString → GoString
  | [] => []
  | c :: cs =>
    if c.val < 128 then c :: hexEscapeNonASCII cs
    else
      37 :: (lit "0123456789abcdef").getD (c.val >>> 4) 0 ::
        (lit "0123456789abcdef").getD (c.val &&& 0x0f) 0 :: hexEscapeNonASCII cs

/-- Model of `http.Redirect(w, r, url, code)` for a reference that parses: a target
without scheme and host is made absolute against the directory of `r.URL.Path` and
cleaned, keeping a trailing slash and the query; `Location` is set and the status
written.  (The short HTML body written for GET requests is not modelled.) -/
def Redirect (w : ResponseWriter) (r : Request) (url : GoString) (code : Nat) : ResponseWriter :=
  let target :=
    if hasSchemeOrHost url then url
    else
      let oldpath := if r.Path = [] then lit "/" else r.Path
      let url := if url = [] ∨ url.head? ≠ some slash then pathDir oldpath ++ url else url
      let path := url.takeWhile (fun c => c ≠ 63)
      let query := url.dropWhile (fun c => c ≠ 63)
      let trailing := HasSuffix path (lit "/")
      let cleaned := Clean path
      let cleaned := if trailing ∧ ¬ HasSuffix cleaned (lit "/") then cleaned ++ lit "/" else cleaned
      cleaned ++ query
  let hadCT := (w.Get (lit "Content-Type")).isSome
  let w := w.Set (lit "Location") (hexEscapeNonASCII target)
  let w :=
    if ¬ hadCT ∧ (r.Method = lit "GET" ∨ r.Method = lit "HEAD") then
      w.Set (lit "Content-Type") (lit "text/html; charset=utf-8")
    else w
  w.WriteHeader code

/-! ## The torrent engine and the effects of the program -/

/-- The engine as the program uses it (`torrent.Client`): the transfers it holds
(`client.Torrents()`, in the order the call returns them) and its answers to
`AddMagnet` and `AddTorrentFromFile`. -/
structure Client where
  Torrents : List Torrent
  AddMagnet : GoString → Except GoError Torrent
  AddTorrentFromFile : GoString → Except GoError Torrent

/-- Model of `client.Torrent(hash)`: the transfer with that info hash, if any. -/
def Client.Torrent (c : Client) (h : Hash) : Option Torrent :=
  c.Torrents.find? (fun t => t.InfoHash = h)

/-- The observable effects of the program, in the order they happen. -/
inductive Event
  | Println (msg : GoString)
  | Fatal (msg : GoString)
  | AddMagnet (uri : GoString)
  | AddTorrentFromFile (path : GoString)
  | goAddTorrent (t : Torrent)
  | GotInfo (t : Torrent)
  | Create (path : GoString) (ok : Bool)
  | WriteMetainfo (t : Torrent) (path : GoString)
  | CloseFile (path : GoString)
  | DownloadAll (t : Torrent)
  | NewReader (f : File)
  | SetResponsive (f : File)
  | ServeContent (name : GoString) (f : File)
  | CloseReader (f : File)
  | Chdir (dir : GoString)
  | Stat (path : GoString)
  | Mkdir (path : GoString)
  | NewClient (storageDir : GoString) (upload : Bool)
  | Glob (pattern : GoString)
  | ListenAndServe (addr : GoString)
  deriving DecidableEq, Repr

/-! ## `sort.Slice` -/

/-- The inner loop of `insertionSort` in package `sort`,
`for j := i; j > a && less(j, j-1); j-- { swap(j, j-1) }`:
the element `x` moves left past every element it is less than.  The part of the
slice before `x` is given last element first, and so is the result. -/
def insertBack {α : Type} (less : α → α → Bool) (x : α) : List α → List α
  | [] => [x]
  | y :: ys => if less x y then y :: insertBack less x ys else x :: y :: ys

/-- Model of `sort.Slice(data, less)`: the insertion sort the package runs on short
slices, `for i := a + 1; i < b; i++ { ... }`, taken at every length.  (On longer slices
the package switches to a quicksort that is not stable; it returns the same sequence up
to the order of elements neither of which is less than the other, see
`sorted_names_unique`.) -/
def SortSlice {α : Type} (data : List α) (less : α → α → Bool) : List α :=
  (data.foldl (fun sorted x => insertBack less x sorted) []).reverse

/-! ## `main.go` -/

/-- Model of `renderTemplate`: `templates.ExecuteTemplate(w, tmpl+".html", data)`, whose
error (given by `templates`) is answered with status 500. -/
def renderTemplate (templates : GoString → indexData → Option GoError)
    (w : ResponseWriter) (tmpl : GoString) (data : indexData) : ResponseWriter :=
  let w := { w with rendered := w.rendered ++ [(tmpl ++ lit ".html", data)] }
  match templates (tmpl ++ lit ".html") data with
  | some err => Error w err.Error 500
  | none => w

/-- Model of `getFlash`: the writer after the call, and the three results
`(flashType, flashMessage, err)`. -/
def getFlash (w : ResponseWriter) (r : Request) :
    ResponseWriter × GoString × GoString × Option GoError :=
  match r.Cookie (lit "flash") with
  | .error err =>
    match err with
    | .ErrNoCookie => (w, [], [], none)
    | _ => (w, [], [], some err)
  | .ok c =>
    let w := SetCookie w { Name := lit "flash", Value := [], Expires := some 1, MaxAge := -1 }
    let parts := Split c.Value colon
    if parts.length ≠ 2 then (w, [], [], none)
    else
      match DecodeString (parts.getD 1 []) with
      | .ok msg => (w, parts.getD 0 [], msg, none)
      | .error _ => (w, [], [], none)

/-- Model of `setFlash`. -/
def setFlash (w : ResponseWriter) (flashType flash : GoString) : ResponseWriter :=
  SetCookie w
    { Name := lit "flash", Value := flashType ++ lit ":" ++ EncodeToString flash, MaxAge := 600 }

/-- Lower-case hexadecimal digit of a value below 16. -/
def hexDigit (n : Nat) : Byte := (lit "0123456789abcdef").getD n 0

/-- Model of `hex.EncodeToString`. -/
def hexEncode : GoString → GoString
  | [] => []
  | b :: bs => hexDigit (b.val >>> 4) :: hexDigit (b.val &&& 0x0f) :: hexEncode bs

/-- Model of `InfoHash().HexString()`. -/
def Hash.HexString (h : Hash) : GoString := hexEncode h.bytes

/-- What the run of one `addTorrent` goroutine depends on: whether the engine ever
closes the channel `t.GotInfo()`, and whether `os.Create` succeeds on a path. -/
structure TaskEnv where
  gotInfo : Bool
  create : GoString → Bool

/-- Model of `addTorrent`: the trace of the goroutine, and whether it returns.  While
the metadata is not there the receive `<-t.GotInfo()` blocks and nothing else happens.
The deferred `file.Close()` runs when the function returns, after `t.DownloadAll()`. -/
def addTorrent (env : TaskEnv) (t : Torrent) : List Event × Bool :=
  if env.gotInfo then
    let path := lit "torrent/" ++ t.InfoHash.HexString ++ lit ".torrent"
    if env.create path then
      ([.GotInfo t, .Create path true, .WriteMetainfo t path, .DownloadAll t, .CloseFile path],
        true)
    else ([.GotInfo t, .Create path false, .DownloadAll t], true)
  else ([], false)

/-- Model of `indexHandler`: the response and the trace of the call. -/
def indexHandler (client : Client) (templates : GoString → indexData → Option GoError)
    (w : ResponseWriter) (r : Request) : ResponseWriter × List Event :=
  if r.Path ≠ lit "/" then (NotFound w r, [])
  else if r.Method = lit "POST" then
    match r.parseFormError with
    | some err => (Error w err.Error 500, [])
    | none =>
      let magnet := r.FormValue (lit "magnet")
      let added : ResponseWriter × List Event :=
        if magnet ≠ [] then
          if HasPrefix magnet (lit "magnet:") then
            match client.AddMagnet magnet with
            | .error err =>
              (setFlash w (lit "error") err.Error, [.AddMagnet magnet, .Println err.Error])
            | .ok t => (w, [.AddMagnet magnet, .goAddTorrent t])
          else (setFlash w (lit "error") (lit "Not a magnet link!"), [])
        else (w, [])
      (Redirect added.1 r [] 303, added.2)
  else
    match getFlash w r with
    | (w, _, _, some err) => (Error w err.Error 500, [])
    | (w, flashType, flashMessage, none) =>
      let torrents := SortSlice client.Torrents (fun a b => Compare a.Name b.Name < 0)
      let data : indexData :=
        { FlashType := flashType, FlashMessage := flashMessage, Torrents := torrents }
      (renderTemplate templates w (lit "index") data, [])

/-- Model of `fromHexChar` in `encoding/hex`: digits and letters of either case. -/
def fromHexChar (c : Byte) : Option Nat :=
  if 48 ≤ c.val ∧ c.val ≤ 57 then some (c.val - 48)
  else if 97 ≤ c.val ∧ c.val ≤ 102 then some (c.val - 97 + 10)
  else if 65 ≤ c.val ∧ c.val ≤ 70 then some (c.val - 65 + 10)
  else none

/-- Model of `hex.Decode` on a source of even length. -/
def hexDecode : GoString → Option GoString
  | a :: b :: rest =>
    match fromHexChar a, fromHexChar b, hexDecode rest with
    | some x, some y, some bs => some (Fin.ofNat (x <<< 4 ||| y) :: bs)
    | _, _, _ => none
  | [_] => none
  | [] => some []

/-- Model of `metainfo.Hash.FromHexString`: forty hexadecimal characters. -/
def Hash.FromHexString (s : GoString) : Except GoError Hash :=
  if s.length ≠ 2 * 20 then .error (.other (lit "hash hex string has bad length"))
  else
    match hexDecode s with
    | none => .error (.other (lit "encoding/hex: invalid byte"))
    | some bs =>
      if h : bs.length = 20 then .ok ⟨bs, h⟩
      else .error (.other (lit "hash hex string has bad length"))

/-- Model of `torrentHandler`: the response and the trace, or `none` when the handler
panics and writes no response: when the slice expression
`r.URL.Path[len("/torrent/"):]` is out of range on a shorter path, and when `t.Files()`
is called on a transfer whose metadata has not arrived.  `serve` is the status
`http.ServeContent` answers with. -/
def torrentHandler (client : Client) (serve : Request → File → ServeStatus)
    (w : ResponseWriter) (r : Request) : Option (ResponseWriter × List Event) :=
  if r.Path.length < (lit "/torrent/").length then none
  else
    let p := Split (r.Path.drop (lit "/torrent/").length) slash
    let log := [Event.Println (lit "[" ++ Join p (lit " ") ++ lit "]")]
    if p.length = 0 then some (NotFound w r, log)
    else
      let path := Join (p.drop 1) (lit "/")
      match Hash.FromHexString (p.getD 0 []) with
      | .error _ => some (NotFound w r, log)
      | .ok hash =>
        match client.Torrent hash with
        | none => some (NotFound w r, log)
        | some t =>
          match t.Files with
          | none => none
          | some files =>
            match files.find? (fun f => f.Path = path) with
            | none => some (NotFound w r, log)
            | some file =>
              let w := w.Set (lit "Content-Disposition")
                (lit "attachment; filename=\"" ++ file.Path ++ lit "\"")
              let w := w.WriteHeader (serve r file).code
              some (w, log ++ [.NewReader file, .SetResponsive file,
                .ServeContent file.DisplayPath file, .CloseReader file])

/-- What `main` finds when it starts: the flags, the answers of the file system and of
`torrent.NewClient`. -/
structure StartEnv where
  listenAddr : GoString := lit "0.0.0.0:8080"
  upload : Bool := false
  rootDir : GoString := lit "."
  storageDir : GoString := lit "torrent"
  chdir : GoString → Option GoError
  stat : GoString → Except GoError Bool
  mkdir : GoString → Option GoError
  newClient : GoString → Bool → Except GoError Client
  glob : GoString → Except GoError (List GoString)

/-- The loop of `main` over the persisted records. -/
def loadTorrents (c : Client) : List GoString → List Event
  | [] => []
  | f :: fs =>
    (match c.AddTorrentFromFile f with
     | .error _ => [Event.AddTorrentFromFile f, .Println (lit "Error loading torrent " ++ f)]
     | .ok t => [Event.AddTorrentFromFile f, .goAddTorrent t]) ++ loadTorrents c fs

/-- Model of `main` up to the call of `http.ListenAndServe`: the trace, which ends in
`Fatal` when `log.Fatal` stops the process and in `ListenAndServe` when the server
starts. -/
def main (env : StartEnv) : List Event :=
  match env.chdir env.rootDir with
  | some err => [.Chdir env.rootDir, .Fatal err.Error]
  | none =>
    let dirEvents : List Event × Bool :=
      match env.stat env.storageDir with
      | .error _ =>
        match env.mkdir env.storageDir with
        | some err => ([.Stat env.storageDir, .Mkdir env.storageDir, .Fatal err.Error], false)
        | none => ([.Stat env.storageDir, .Mkdir env.storageDir], true)
      | .ok isDir =>
        if ¬ isDir then
          ([.Stat env.storageDir, .Fatal (env.storageDir ++ lit " needs to be a directory!")],
            false)
        else ([.Stat env.storageDir], true)
    if ¬ dirEvents.2 then .Chdir env.rootDir :: dirEvents.1
    else
      let pre := .Chdir env.rootDir :: dirEvents.1 ++
        [.Println (lit "Creating client"), .NewClient env.storageDir env.upload]
      match env.newClient env.storageDir env.upload with
      | .error err => pre ++ [.Fatal err.Error]
      | .ok c =>
        match env.glob (env.storageDir ++ lit "/*.torrent") with
        | .error err => pre ++ [.Glob (env.storageDir ++ lit "/*.torrent"), .Fatal err.Error]
        | .ok oldTorrents =>
          pre ++ [.Glob (env.storageDir ++ lit "/*.torrent")] ++ loadTorrents c oldTorrents ++
            [.Println (lit "Handling requests on " ++ env.listenAddr),
              .ListenAndServe env.listenAddr]

/-! ## A user agent's cookie store -/

/-- How a user agent that honours `Set-Cookie` stores one cookie at time `now` (Unix
seconds): the cookie replaces any cookie of the same name; a negative `MaxAge` (sent as
`Max-Age: 0`), or without `MaxAge` an expiry that has passed, removes it. -/
def jarStore (now : Int) (jar : List Cookie) (c : Cookie) : List Cookie :=
  let others := jar.filter (fun d => d.Name ≠ c.Name)
  let expired : Bool :=
    decide (c.MaxAge < 0) ||
      (decide (c.MaxAge = 0) &&
        (match c.Expires with
         | some e => decide (e ≤ now)
         | none => false))
  if expired then others else others ++ [c]

/-- The store after a response: its `Set-Cookie` lines applied in order. -/
def jarReceive (now : Int) (jar : List Cookie) (w : ResponseWriter) : List Cookie :=
  w.cookies.foldl (jarStore now) jar

/-- The next request of the user agent carries the cookies of its store, which the
server reads with `readCookies`. -/
def jarRequest (jar : List Cookie) (r : Request) : Request :=
  { r with cookies := readCookies jar }

/-! ## `path/filepath`: matching the recovery pattern -/

/-- What can remain of a name after `*` has matched: `*` takes any run of bytes other
than `'/'`. -/
def starTails : GoString → List GoString
  | [] => [[]]
  | n :: ns => (n :: ns) :: (if n = slash then [] else starTails ns)

/-- Model of `filepath.Match` on Unix for well-formed patterns without character
classes: `*` matches any run of bytes other than `'/'`, `?` one such byte, a backslash
quotes the next byte, any other byte matches itself. -/
def Match : GoString → GoString → Bool
  | [], name => name = []
  | [c], name =>
    if c = 42 then (starTails name).any (fun rest => rest = [])
    else if c = 63 then
      match name with
      | [n] => n ≠ slash
      | _ => false
    else name = [c]
  | c :: q :: pat, name =>
    if c = 42 then (starTails name).any (fun rest => Match (q :: pat) rest)
    else if c = 63 then
      match name with
      | [] => false
      | n :: ns => n ≠ slash && Match (q :: pat) ns
    else if c = 92 then
      match name with
      | [] => false
      | n :: ns => q = n && Match pat ns
    else
      match name with
      | [] => false
      | n :: ns => c = n && Match (q :: pat) ns

/-! ## Vocabulary of the statements -/

deriving instance DecidableEq for Except

/-- The value of the flash cookie a response sets: that of its last `Set-Cookie` line
named `flash`. -/
def flashWritten (w : ResponseWriter) : Option GoString :=
  (w.cookies.reverse.find? (fun c => c.Name = lit "flash")).map (fun c => c.Value)

/-- The cookie `getFlash` answers a flash cookie with: no value, `MaxAge: -1` and
`Expires: time.Unix(1, 0)`. -/
def clearFlash : Cookie := { Name := lit "flash", Value := [], Expires := some 1, MaxAge := -1 }

/-- The part of a string before its first `sep` (all of it when there is none). -/
def beforeFirst (s : GoString) (sep : Byte) : GoString := s.takeWhile (fun c => c ≠ sep)

/-- The part of a string after its first `sep` (empty when there is none). -/
def afterFirst (s : GoString) (sep : Byte) : GoString := (s.dropWhile (fun c => c ≠ sep)).drop 1

/-- An engine that holds no transfer and rejects every request. -/
def idleClient : Client :=
  { Torrents := []
    AddMagnet := fun _ => .error (.other (lit "rejected"))
    AddTorrentFromFile := fun _ => .error (.other (lit "rejected")) }

/-- Templates that always execute. -/
def goodTemplates : GoString → indexData → Option GoError := fun _ _ => none

/-- A transfer with the given display name, for examples. -/
def named (name : GoString) : Torrent :=
  { InfoHash := ⟨List.replicate 20 0, rfl⟩, Name := name, Files := some [] }

/-- Whether the request path `"/torrent/" + s` resolves: the part of `s` before its
first `'/'` is the hex encoding of a hash the client knows, and a file of that transfer
has the part after that `'/'` as its `Path()`. -/
def Resolves (client : Client) (s : GoString) : Prop :=
  ∃ h t files f, Hash.FromHexString (beforeFirst s slash) = .ok h ∧
    client.Torrent h = some t ∧ t.Files = some files ∧ f ∈ files ∧
    f.Path = afterFirst s slash

/-- Whether the transfer that the request path `"/torrent/" + s` names, if the client
knows one, has its metadata. -/
def MetadataThere (client : Client) (s : GoString) : Prop :=
  ∀ h t, Hash.FromHexString (beforeFirst s slash) = .ok h → client.Torrent h = some t →
    t.Files ≠ none

/-- The path `addTorrent` passes to `os.Create`. -/
def persistPath (t : Torrent) : GoString :=
  lit "torrent/" ++ t.InfoHash.HexString ++ lit ".torrent"

/-- The path of a load attempt, for the events `c.AddTorrentFromFile(f)`. -/
def attemptedLoad : Event → Option GoString
  | .AddTorrentFromFile f => some f
  | _ => none

/-- The transfer of a started task, for the events `go addTorrent(t)`. -/
def startedTask : Event → Option Torrent
  | .goAddTorrent t => some t
  | _ => none

/-- A transfer named `demo` with the all-zero hash and one file, `a/b.mkv` inside the
transfer: its `Path()` is `demo/a/b.mkv` and its `DisplayPath()` is `a/b.mkv`. -/
def demoTorrent : Torrent :=
  { InfoHash := ⟨List.replicate 20 0, rfl⟩, Name := lit "demo",
    Files := some [{ Path := lit "demo/a/b.mkv", DisplayPath := lit "a/b.mkv" }] }

/-- A client that holds the transfer `demoTorrent`. -/
def demoClient : Client := { idleClient with Torrents := [demoTorrent] }

/-- A transfer just added by magnet link: the all-zero hash, no metadata yet. -/
def pendingTorrent : Torrent :=
  { InfoHash := ⟨List.replicate 20 0, rfl⟩, Name := lit "pending", Files := none }

/-- A client that holds the transfer `pendingTorrent`. -/
def pendingClient : Client := { idleClient with Torrents := [pendingTorrent] }

/-- A client that loads the record `torrent/good.torrent` and rejects any other. -/
def recoveringClient : Client :=
  { idleClient with
    AddTorrentFromFile := fun f =>
      if f = lit "torrent/good.torrent" then .ok (named (lit "good"))
      else .error (.other (lit "bencode: syntax error")) }

/-- A start in which the directories are there and two records are found, the first
one corrupted. -/
def demoStart : StartEnv :=
  { chdir := fun _ => none
    stat := fun _ => .ok true
    mkdir := fun _ => none
    newClient := fun _ _ => .ok recoveringClient
    glob := fun _ => .ok [lit "torrent/bad.torrent", lit "torrent/good.torrent"] }

/-! # Theorems -/

/-! ## Bit arithmetic of the base64 quantum -/

theorem or_eq_add_of_dvd (x b i : Nat) (hx : 2 ^ i ∣ x) (hb : b < 2 ^ i) : x ||| b = x + b := by
  obtain ⟨k, rfl⟩ := hx
  exact (Nat.mul_add_lt_is_or hb k).symm

theorem and_63 (x : Nat) : x &&& 0x3F = x % 64 := Nat.and_pow_two_sub_one_eq_mod x 6

theorem pack3 (a b c : Nat) (hb : b < 256) (hc : c < 256) :
    a <<< 16 ||| b <<< 8 ||| c = a * 65536 + b * 256 + c := by
  simp only [Nat.shiftLeft_eq]
  rw [or_eq_add_of_dvd (a * 2 ^ 16) (b * 2 ^ 8) 16 (Dvd.intro_left _ rfl) (by omega),
    or_eq_add_of_dvd (a * 2 ^ 16 + b * 2 ^ 8) c 8 (by omega) (by omega)]
  omega

theorem pack4 (d0 d1 d2 d3 : Nat) (h1 : d1 < 64) (h2 : d2 < 64) (h3 : d3 < 64) :
    d0 <<< 18 ||| d1 <<< 12 ||| d2 <<< 6 ||| d3 = d0 * 262144 + d1 * 4096 + d2 * 64 + d3 := by
  simp only [Nat.shiftLeft_eq]
  rw [or_eq_add_of_dvd (d0 * 2 ^ 18) (d1 * 2 ^ 12) 18 (Dvd.intro_left _ rfl) (by omega),
    or_eq_add_of_dvd (d0 * 2 ^ 18 + d1 * 2 ^ 12) (d2 * 2 ^ 6) 12 (by omega) (by omega),
    or_eq_add_of_dvd (d0 * 2 ^ 18 + d1 * 2 ^ 12 + d2 * 2 ^ 6) d3 6 (by omega) (by omega)]
  omega

theorem quantumBytes_three (b0 b1 b2 : Byte) :
    quantumBytes
      [(b0.val <<< 16 ||| b1.val <<< 8 ||| b2.val) >>> 18 &&& 0x3F,
        (b0.val <<< 16 ||| b1.val <<< 8 ||| b2.val) >>> 12 &&& 0x3F,
        (b0.val <<< 16 ||| b1.val <<< 8 ||| b2.val) >>> 6 &&& 0x3F,
        (b0.val <<< 16 ||| b1.val <<< 8 ||| b2.val) &&& 0x3F] = [b0, b1, b2] := by
  have h0 := b0.isLt
  have h1 := b1.isLt
  have h2 := b2.isLt
  simp only [quantumBytes, pack3 _ _ _ h1 h2, and_63, Nat.shiftRight_eq_div_pow]
  simp only [List.getD_cons_zero, List.getD_cons_succ, List.length_cons, List.length_nil]
  rw [pack4 _ _ _ _ (Nat.mod_lt _ (by norm_num)) (Nat.mod_lt _ (by norm_num))
    (Nat.mod_lt _ (by norm_num))]
  simp only [List.take, Nat.reduceAdd, Nat.reduceSub, List.cons.injEq, and_true]
  refine ⟨Fin.ext ?_, Fin.ext ?_, Fin.ext ?_⟩ <;> simp only [Fin.ofNat] <;> omega

theorem quantumBytes_two (b0 b1 : Byte) :
    quantumBytes
      [(b0.val <<< 16 ||| b1.val <<< 8) >>> 18 &&& 0x3F,
        (b0.val <<< 16 ||| b1.val <<< 8) >>> 12 &&& 0x3F,
        (b0.val <<< 16 ||| b1.val <<< 8) >>> 6 &&& 0x3F] = [b0, b1] := by
  have h0 := b0.isLt
  have h1 := b1.isLt
  have hv : b0.val <<< 16 ||| b1.val <<< 8 = b0.val * 65536 + b1.val * 256 := by
    have := pack3 b0.val b1.val 0 h1 (by norm_num)
    simpa using this
  simp only [quantumBytes, hv, and_63, Nat.shiftRight_eq_div_pow]
  simp only [List.getD_cons_zero, List.getD_cons_succ, List.length_cons, List.length_nil,
    List.getD_nil]
  rw [pack4 _ _ _ _ (Nat.mod_lt _ (by norm_num)) (Nat.mod_lt _ (by norm_num)) (by norm_num)]
  simp only [List.take, Nat.reduceAdd, Nat.reduceSub, List.cons.injEq, and_true]
  refine ⟨Fin.ext ?_, Fin.ext ?_⟩ <;> simp only [Fin.ofNat] <;> omega

theorem quantumBytes_one (b0 : Byte) :
    quantumBytes [b0.val <<< 16 >>> 18 &&& 0x3F, b0.val <<< 16 >>> 12 &&& 0x3F] = [b0] := by
  have h0 := b0.isLt
  simp only [quantumBytes, and_63, Nat.shiftRight_eq_div_pow]
  simp only [List.getD_cons_zero, List.getD_cons_succ, List.length_cons, List.length_nil,
    List.getD_nil]
  rw [pack4 _ _ _ _ (Nat.mod_lt _ (by norm_num)) (by norm_num) (by norm_num)]
  simp only [List.take, Nat.reduceAdd, Nat.reduceSub, List.cons.injEq, and_true,
    Nat.shiftLeft_eq]
  refine Fin.ext ?_
  simp only [Fin.ofNat]
  omega

/-! ## The alphabet -/

theorem decodeMap_encodeChar_fin : ∀ i : Fin 64, decodeMap (encodeChar i.val) = i.val := by
  decide

theorem encodeChar_facts_fin :
    ∀ i : Fin 64, encodeChar i.val ≠ colon ∧ encodeChar i.val ≠ padChar := by
  decide

theorem decodeMap_encodeChar (x : Nat) : decodeMap (encodeChar (x &&& 0x3F)) = x &&& 0x3F := by
  have h : x &&& 0x3F < 64 := by rw [and_63]; omega
  exact decodeMap_encodeChar_fin ⟨_, h⟩

theorem encodeChar_ne_colon (x : Nat) : encodeChar (x &&& 0x3F) ≠ colon := by
  have h : x &&& 0x3F < 64 := by rw [and_63]; omega
  exact (encodeChar_facts_fin ⟨_, h⟩).1

theorem and_63_ne_255 (x : Nat) : x &&& 0x3F ≠ 255 := by
  rw [and_63]; omega

/-- One step of the decoder on a character of the alphabet. -/
theorem decodeLoop_digit (dbuf : List Nat) (x : Nat) (cs : GoString) :
    decodeLoop dbuf (encodeChar (x &&& 0x3F) :: cs) =
      if dbuf.length = 3 then
        match decodeLoop [] cs with
        | .ok more => .ok (quantumBytes (dbuf ++ [x &&& 0x3F]) ++ more)
        | .error e => .error e
      else decodeLoop (dbuf ++ [x &&& 0x3F]) cs := by
  rw [decodeLoop]
  simp only [decodeMap_encodeChar, ne_eq, and_63_ne_255, not_false_eq_true, if_true]

theorem decodeMap_padChar : decodeMap padChar = 0xff := by decide

theorem isNewline_padChar : isNewline padChar = false := by decide

theorem decodeLoop_pad2 (d0 d1 : Nat) :
    decodeLoop [d0, d1] [padChar, padChar] = .ok (quantumBytes [d0, d1]) := by
  simp [decodeLoop, decodePadding, skipNewlines, decodeMap_padChar, isNewline_padChar]

theorem decodeLoop_pad1 (d0 d1 d2 : Nat) :
    decodeLoop [d0, d1, d2] [padChar] = .ok (quantumBytes [d0, d1, d2]) := by
  simp [decodeLoop, decodePadding, skipNewlines, decodeMap_padChar, isNewline_padChar]

/-- Decoding inverts encoding: `DecodeString(EncodeToString(b))` is `b` with a nil error. -/
theorem DecodeString_EncodeToString : ∀ bs : GoString, DecodeString (EncodeToString bs) = .ok bs
  | [] => by rfl
  | [b0] => by
    simp only [DecodeString, EncodeToString, decodeLoop_digit, List.length_nil, List.length_cons,
      List.nil_append, List.cons_append, decodeLoop_pad2, quantumBytes_one]
    simp
  | [b0, b1] => by
    simp only [DecodeString, EncodeToString, decodeLoop_digit, List.length_nil, List.length_cons,
      List.nil_append, List.cons_append, decodeLoop_pad1, quantumBytes_two]
    simp
  | b0 :: b1 :: b2 :: rest => by
    have ih := DecodeString_EncodeToString rest
    simp only [DecodeString] at ih
    simp only [DecodeString, EncodeToString, decodeLoop_digit, List.length_nil, List.length_cons,
      List.nil_append, List.cons_append, quantumBytes_three, ih]
    simp

theorem colon_not_mem_EncodeToString : ∀ bs : GoString, colon ∉ EncodeToString bs
  | [] => by simp [EncodeToString]
  | [b0] => by
    simp only [EncodeToString, List.mem_cons, List.mem_singleton, not_or, List.not_mem_nil,
      or_false]
    exact ⟨(encodeChar_ne_colon _).symm, (encodeChar_ne_colon _).symm, by decide, by decide⟩
  | [b0, b1] => by
    simp only [EncodeToString, List.mem_cons, List.mem_singleton, not_or, List.not_mem_nil,
      or_false]
    exact ⟨(encodeChar_ne_colon _).symm, (encodeChar_ne_colon _).symm,
      (encodeChar_ne_colon _).symm, by decide⟩
  | b0 :: b1 :: b2 :: rest => by
    have ih := colon_not_mem_EncodeToString rest
    simp only [EncodeToString, List.mem_cons, not_or]
    exact ⟨(encodeChar_ne_colon _).symm, (encodeChar_ne_colon _).symm,
      (encodeChar_ne_colon _).symm, (encodeChar_ne_colon _).symm, ih⟩

/-! ## `strings.Split` and `strings.Join` -/

theorem Split_of_not_mem (sep : Byte) : ∀ s : GoString, sep ∉ s → Split s sep = [s]
  | [], _ => rfl
  | c :: cs, h => by
    have hc : c ≠ sep := fun e => h (by simp [e])
    have hcs : sep ∉ cs := fun e => h (List.mem_cons_of_mem _ e)
    simp [Split, hc, Split_of_not_mem sep cs hcs]

theorem Split_append_sep (sep : Byte) (b : GoString) :
    ∀ a : GoString, sep ∉ a → Split (a ++ sep :: b) sep = a :: Split b sep
  | [], _ => by simp [Split]
  | c :: cs, h => by
    have hc : c ≠ sep := fun e => h (by simp [e])
    have hcs : sep ∉ cs := fun e => h (List.mem_cons_of_mem _ e)
    simp [Split, hc, Split_append_sep sep b cs hcs]

theorem Split_length (sep : Byte) : ∀ s : GoString, (Split s sep).length = s.count sep + 1
  | [] => rfl
  | c :: cs => by
    have ih := Split_length sep cs
    by_cases hc : c = sep
    · subst hc
      simp [Split, ih]
    · have hc2 : ¬ (c == sep) = true := by simpa using hc
      rw [Split, if_neg hc, List.count_cons, if_neg hc2]
      cases hs : Split cs sep with
      | nil => rw [hs] at ih; simp at ih
      | cons p ps => rw [hs] at ih; simpa using ih

theorem takeWhile_append_dropWhile_sep (sep : Byte) (s : GoString) (h : sep ∈ s) :
    s = beforeFirst s sep ++ sep :: afterFirst s sep ∧ sep ∉ beforeFirst s sep := by
  induction s with
  | nil => simp at h
  | cons c cs ih =>
    by_cases hc : c = sep
    · subst hc
      simp [beforeFirst, afterFirst]
    · have hcs : sep ∈ cs := by
        rcases List.mem_cons.1 h with e | e
        · exact absurd e.symm hc
        · exact e
      obtain ⟨h1, h2⟩ := ih hcs
      have hne : sep ≠ c := fun e => hc e.symm
      simp only [beforeFirst, afterFirst] at h1 h2 ⊢
      simp only [List.takeWhile, List.dropWhile, hc, ne_eq, not_false_eq_true, decide_True,
        List.cons_append, List.mem_cons, not_or]
      exact ⟨by rw [← h1], hne, h2⟩

theorem afterFirst_of_not_mem (sep : Byte) (s : GoString) (h : sep ∉ s) :
    beforeFirst s sep = s ∧ afterFirst s sep = [] := by
  induction s with
  | nil => simp [beforeFirst, afterFirst]
  | cons c cs ih =>
    have hc : c ≠ sep := fun e => h (by simp [e])
    have hcs : sep ∉ cs := fun e => h (List.mem_cons_of_mem _ e)
    obtain ⟨h1, h2⟩ := ih hcs
    simp only [beforeFirst, afterFirst] at h1 h2 ⊢
    simp only [List.takeWhile, List.dropWhile, hc, ne_eq, not_false_eq_true, decide_True]
    exact ⟨by rw [h1], h2⟩

theorem Split_ne_nil (sep : Byte) (s : GoString) : Split s sep ≠ [] := by
  intro h
  have := Split_length sep s
  rw [h] at this
  simp at this

theorem Join_Split (sep : Byte) : ∀ s : GoString, Join (Split s sep) [sep] = s
  | [] => rfl
  | c :: cs => by
    have ih := Join_Split sep cs
    by_cases hc : c = sep
    · subst hc
      cases hs : Split cs c with
      | nil => exact absurd hs (Split_ne_nil _ _)
      | cons p ps => rw [hs] at ih; simp [Split, hs, Join, ih]
    · rw [Split, if_neg hc]
      cases hs : Split cs sep with
      | nil => exact absurd hs (Split_ne_nil _ _)
      | cons p ps =>
        rw [hs] at ih
        cases ps with
        | nil => simp [Join] at ih ⊢; exact ih
        | cons q qs => simp [Join] at ih ⊢; exact ih

/-- The first piece of `Split` is the part before the first separator, and joining the
other pieces gives back the part after it. -/
theorem Split_head_tail (sep : Byte) (s : GoString) :
    (Split s sep).getD 0 [] = beforeFirst s sep ∧
      Join ((Split s sep).drop 1) [sep] = afterFirst s sep := by
  by_cases h : sep ∈ s
  · obtain ⟨h1, h2⟩ := takeWhile_append_dropWhile_sep sep s h
    have hs : Split s sep = beforeFirst s sep :: Split (afterFirst s sep) sep := by
      conv_lhs => rw [h1]
      exact Split_append_sep sep _ _ h2
    rw [hs]
    simp [Join_Split]
  · obtain ⟨h1, h2⟩ := afterFirst_of_not_mem sep s h
    rw [Split_of_not_mem sep s h, h1, h2]
    simp [Join]

/-! ## The flash cookie: `setFlash` and `getFlash` -/

theorem lit_colon : lit ":" = [colon] := by decide

/-! ### What `net/http` writes and reads back -/

theorem flash_name_valid : isCookieNameValid (lit "flash") = true := by decide

theorem validCookieValueByte_quote : validCookieValueByte 34 = false := by decide

theorem validCookieValueByte_colon : validCookieValueByte colon = true := by decide

theorem encodeChar_valid_fin : ∀ i : Fin 64, validCookieValueByte (encodeChar i.val) = true := by
  decide

theorem encodeChar_valid (x : Nat) : validCookieValueByte (encodeChar (x &&& 0x3F)) = true := by
  have h : x &&& 0x3F < 64 := by rw [and_63]; omega
  exact encodeChar_valid_fin ⟨_, h⟩

theorem validCookieValueByte_padChar : validCookieValueByte padChar = true := by decide

theorem EncodeToString_valid : ∀ bs : GoString, ∀ b ∈ EncodeToString bs,
    validCookieValueByte b = true
  | [], b, h => by simp [EncodeToString] at h
  | [b0], b, h => by
    simp only [EncodeToString, List.mem_cons, List.mem_singleton, List.not_mem_nil,
      or_false] at h
    rcases h with h | h | h | h <;> subst h
    · exact encodeChar_valid _
    · exact encodeChar_valid _
    · exact validCookieValueByte_padChar
    · exact validCookieValueByte_padChar
  | [b0, b1], b, h => by
    simp only [EncodeToString, List.mem_cons, List.mem_singleton, List.not_mem_nil,
      or_false] at h
    rcases h with h | h | h | h <;> subst h
    · exact encodeChar_valid _
    · exact encodeChar_valid _
    · exact encodeChar_valid _
    · exact validCookieValueByte_padChar
  | b0 :: b1 :: b2 :: rest, b, h => by
    simp only [EncodeToString, List.mem_cons] at h
    rcases h with h | h | h | h | h
    · subst h; exact encodeChar_valid _
    · subst h; exact encodeChar_valid _
    · subst h; exact encodeChar_valid _
    · subst h; exact encodeChar_valid _
    · exact EncodeToString_valid rest b h

/-- Reading back what `SetCookie` wrote gives the value without its invalid bytes:
the quotes `sanitizeCookieValue` adds are the ones `parseCookieValue` strips. -/
theorem parse_sanitize (v : GoString) :
    parseCookieValue (sanitizeCookieValue v) = some (v.filter validCookieValueByte) := by
  have hall : ∀ b ∈ v.filter validCookieValueByte, validCookieValueByte b = true :=
    fun b hb => (List.mem_filter.1 hb).2
  unfold sanitizeCookieValue
  simp only []
  generalize v.filter validCookieValueByte = u at hall ⊢
  have hallb : u.all validCookieValueByte = true := List.all_eq_true.2 hall
  by_cases h0 : u.length = 0
  · have hu : u = [] := List.length_eq_zero.1 h0
    subst hu
    rfl
  · rw [if_neg h0]
    by_cases hq : (32 : Byte) ∈ u ∨ (44 : Byte) ∈ u
    · rw [if_pos hq]
      have hstrip : (([34] ++ u ++ [34] : GoString).drop 1).dropLast = u := by
        simp [List.dropLast_concat]
      have hcond : 1 < ([34] ++ u ++ [34] : GoString).length ∧
          ([34] ++ u ++ [34] : GoString).head? = some 34 ∧
          ([34] ++ u ++ [34] : GoString).getLast? = some 34 := by
        refine ⟨by simp, by simp, ?_⟩
        rw [List.getLast?_concat]
      unfold parseCookieValue
      simp only []
      rw [if_pos hcond, hstrip, if_pos hallb]
    · rw [if_neg hq]
      have hhead : ¬ (1 < u.length ∧ u.head? = some 34 ∧ u.getLast? = some 34) := by
        rintro ⟨_, hh, _⟩
        cases u with
        | nil => simp at hh
        | cons a t =>
          simp only [List.head?_cons, Option.some.injEq] at hh
          subst hh
          have := hall 34 (List.mem_cons_self _ _)
          rw [validCookieValueByte_quote] at this
          cases this
      unfold parseCookieValue
      simp only []
      rw [if_neg hhead, if_pos hallb]

theorem filter_flash_value (kind text : GoString) :
    (kind ++ colon :: EncodeToString text).filter validCookieValueByte =
      kind.filter validCookieValueByte ++ colon :: EncodeToString text := by
  rw [List.filter_append, List.filter_cons, if_pos validCookieValueByte_colon,
    List.filter_eq_self.2 (EncodeToString_valid text)]

theorem SetCookie_flash (w : ResponseWriter) (c : Cookie) (hn : c.Name = lit "flash") :
    SetCookie w c =
      { w with cookies := w.cookies ++ [{ c with Value := sanitizeCookieValue c.Value }] } := by
  unfold SetCookie
  rw [hn, if_pos flash_name_valid]

theorem SetCookie_clearFlash (w : ResponseWriter) :
    SetCookie w clearFlash = { w with cookies := w.cookies ++ [clearFlash] } := by
  rw [SetCookie_flash w clearFlash rfl]
  rfl

theorem SetCookie_status (w : ResponseWriter) (c : Cookie) : (SetCookie w c).status = w.status := by
  unfold SetCookie
  split <;> rfl

theorem SetCookie_rendered (w : ResponseWriter) (c : Cookie) :
    (SetCookie w c).rendered = w.rendered := by
  unfold SetCookie
  split <;> rfl

theorem readCookies_name (sent : List Cookie) (c : Cookie) (h : c ∈ readCookies sent) :
    ∃ d ∈ sent, d.Name = c.Name := by
  unfold readCookies at h
  obtain ⟨d, hd, hc⟩ := List.mem_filterMap.1 h
  refine ⟨d, hd, ?_⟩
  split at hc
  · cases hp : parseCookieValue d.Value with
    | none => rw [hp] at hc; cases hc
    | some v =>
      rw [hp] at hc
      simp only [Option.map_some', Option.some.injEq] at hc
      rw [← hc]
  · cases hc

theorem readCookies_append (a b : List Cookie) :
    readCookies (a ++ b) = readCookies a ++ readCookies b := by
  simp [readCookies, List.filterMap_append]

theorem Cookie_error (r : Request) (name : GoString) (e : GoError)
    (h : r.Cookie name = .error e) : e = .ErrNoCookie := by
  unfold Request.Cookie at h
  split at h
  · injection h with h; exact h.symm
  · split at h
    · cases h
    · injection h with h; exact h.symm

theorem Cookie_flash_iff (r : Request) :
    (∃ c, r.Cookie (lit "flash") = .ok c) ↔ ∃ c ∈ r.cookies, c.Name = lit "flash" := by
  have hne : lit "flash" ≠ [] := by decide
  unfold Request.Cookie
  rw [if_neg hne]
  constructor
  · rintro ⟨c, hc⟩
    cases hf : r.cookies.find? (fun c => c.Name = lit "flash") with
    | none => rw [hf] at hc; cases hc
    | some d =>
      refine ⟨d, List.mem_of_find?_eq_some hf, ?_⟩
      simpa using List.find?_some hf
  · rintro ⟨c, hc, hn⟩
    cases hf : r.cookies.find? (fun c => c.Name = lit "flash") with
    | none =>
      have := List.find?_eq_none.1 hf c hc
      simp [hn] at this
    | some d => exact ⟨d, rfl⟩

theorem getFlash_of_cookie (w : ResponseWriter) (r : Request) (c : Cookie)
    (h : r.Cookie (lit "flash") = .ok c) :
    getFlash w r =
      if (Split c.Value colon).length ≠ 2 then (SetCookie w clearFlash, [], [], none)
      else
        match DecodeString ((Split c.Value colon).getD 1 []) with
        | .ok msg => (SetCookie w clearFlash, (Split c.Value colon).getD 0 [], msg, none)
        | .error _ => (SetCookie w clearFlash, [], [], none) := by
  simp only [getFlash, h, clearFlash]

theorem getFlash_of_no_cookie (w : ResponseWriter) (r : Request)
    (h : ∀ c ∈ r.cookies, c.Name ≠ lit "flash") : getFlash w r = (w, [], [], none) := by
  cases hc : r.Cookie (lit "flash") with
  | ok c =>
    obtain ⟨d, hd, hn⟩ := (Cookie_flash_iff r).1 ⟨c, hc⟩
    exact absurd hn (h d hd)
  | error e =>
    have he := Cookie_error r _ e hc
    subst he
    simp only [getFlash, hc]

theorem flashWritten_setFlash (w : ResponseWriter) (kind text : GoString) :
    flashWritten (setFlash w kind text) =
      some (sanitizeCookieValue (kind ++ colon :: EncodeToString text)) := by
  rw [setFlash, SetCookie_flash _ _ rfl]
  simp [flashWritten, lit_colon]

theorem Split_flash_value (kind text : GoString) (hkind : colon ∉ kind) :
    Split (kind ++ colon :: EncodeToString text) colon = [kind, EncodeToString text] := by
  rw [Split_append_sep colon _ kind hkind,
    Split_of_not_mem colon _ (colon_not_mem_EncodeToString text)]

/-- What `getFlash` returns when the request carries what `setFlash(kind, text)` wrote,
read back by `net/http`, for a kind without `':'`: the kind without the bytes that are
not valid in a cookie value, and the text. -/
theorem getFlash_of_written (w : ResponseWriter) (r : Request) (c : Cookie)
    (kind text : GoString) (hkind : colon ∉ kind) (h : r.Cookie (lit "flash") = .ok c)
    (hv : parseCookieValue (sanitizeCookieValue (kind ++ colon :: EncodeToString text)) =
      some c.Value) :
    getFlash w r =
      (SetCookie w clearFlash, kind.filter validCookieValueByte, text, none) := by
  rw [parse_sanitize, filter_flash_value] at hv
  injection hv with hv
  have hk : colon ∉ kind.filter validCookieValueByte :=
    fun hm => hkind (List.mem_filter.1 hm).1
  rw [getFlash_of_cookie w r c h, ← hv, Split_flash_value _ text hk]
  simp [DecodeString_EncodeToString]

/-- C1, as stated, fails for a kind that holds a byte `net/http` does not allow in a
cookie value: `"a;b"` holds no `':'`, yet `setFlash("a;b", "x")` writes the value
`ab:eA==`, and `getFlash` on a request carrying it returns `("ab", "x", nil)`. -/
theorem flash_round_trip_drops_invalid_bytes :
    colon ∉ lit "a;b" ∧
    flashWritten (setFlash {} (lit "a;b") (lit "x")) = some (lit "ab:eA==") ∧
    (getFlash {} { cookies := [{ Name := lit "flash", Value := lit "ab:eA==" }] }).2 =
      (lit "ab", lit "x", none) ∧
    (lit "ab", lit "x", (none : Option GoError)) ≠ (lit "a;b", lit "x", none) := by
  decide

/-- C1 (amended). Flash round trip: for every kind that holds no `':'` and only bytes
valid in a cookie value (printable ASCII other than `'"'`, `';'` and the backslash), and
every text (any bytes), `getFlash` on a request whose flash cookie carries the value
`setFlash(kind, text)` writes, as `net/http` reads it back, returns `(kind, text, nil)`. -/
theorem flash_round_trip (w0 w : ResponseWriter) (r : Request) (kind text : GoString)
    (c : Cookie) (hkind : colon ∉ kind) (hvalid : ∀ b ∈ kind, validCookieValueByte b = true)
    (hc : r.Cookie (lit "flash") = .ok c)
    (hv : (flashWritten (setFlash w0 kind text)).bind parseCookieValue = some c.Value) :
    (getFlash w r).2 = (kind, text, none) := by
  rw [flashWritten_setFlash, Option.some_bind] at hv
  rw [getFlash_of_written w r c kind text hkind hc hv, List.filter_eq_self.2 hvalid]

set_option maxRecDepth 100000 in
/-- C1 (amended), at `setFlash("error", "bad link")`: the cookie value is
`error:YmFkIGxpbms=` and `getFlash` returns `("error", "bad link", nil)`. -/
theorem flash_round_trip_witness :
    flashWritten (setFlash {} (lit "error") (lit "bad link")) = some (lit "error:YmFkIGxpbms=") ∧
      (getFlash {} { cookies := [{ Name := lit "flash", Value := lit "error:YmFkIGxpbms=" }] }).2 =
        (lit "error", lit "bad link", none) :=
  ⟨by decide,
    flash_round_trip {} {} { cookies := [{ Name := lit "flash", Value := lit "error:YmFkIGxpbms=" }] }
      (lit "error") (lit "bad link") { Name := lit "flash", Value := lit "error:YmFkIGxpbms=" }
      (by decide) (by decide) (by decide) (by decide)⟩

theorem Split_two_parts (v p0 p1 : GoString) (h : Split v colon = [p0, p1]) :
    p0 = beforeFirst v colon ∧ p1 = afterFirst v colon := by
  obtain ⟨h1, h2⟩ := Split_head_tail colon v
  rw [h] at h1 h2
  simp [Join] at h1 h2
  exact ⟨h1, h2⟩

theorem getFlash_error_nil (w : ResponseWriter) (r : Request) : (getFlash w r).2.2.2 = none := by
  cases hc : r.Cookie (lit "flash") with
  | error e =>
    have he := Cookie_error r _ e hc
    subst he
    simp [getFlash, hc]
  | ok c =>
    rw [getFlash_of_cookie w r c hc]
    split
    · rfl
    · split <;> rfl

/-- C8. A missing flash cookie and a malformed one (its value does not split on `':'`
into exactly two parts, that is, it does not hold exactly one `':'`, or the part after
the `':'` does not decode as padded base64url) both give `("", "", nil)`; the error is
always nil; a non-empty kind or text is returned only for a value with exactly one
`':'` whose second part decodes, and then it is the part before the `':'` and the
decoded text. -/
theorem getFlash_malformed_is_empty (w : ResponseWriter) (r : Request) :
    ((∀ c ∈ r.cookies, c.Name ≠ lit "flash") → (getFlash w r).2 = ([], [], none)) ∧
    (∀ c, r.Cookie (lit "flash") = .ok c →
      ((Split c.Value colon).length ≠ 2 ∨ c.Value.count colon ≠ 1 ∨
        ∀ msg, DecodeString (afterFirst c.Value colon) ≠ .ok msg) →
      (getFlash w r).2 = ([], [], none)) ∧
    ((getFlash w r).2.1 ≠ [] ∨ (getFlash w r).2.2.1 ≠ [] →
      ∃ c msg, r.Cookie (lit "flash") = .ok c ∧ c.Value.count colon = 1 ∧
        DecodeString (afterFirst c.Value colon) = .ok msg ∧
        (getFlash w r).2 = (beforeFirst c.Value colon, msg, none)) ∧
    (getFlash w r).2.2.2 = none := by
  have key : ∀ c, r.Cookie (lit "flash") = .ok c →
      ((Split c.Value colon).length ≠ 2 ∨ c.Value.count colon ≠ 1 ∨
          ∀ msg, DecodeString (afterFirst c.Value colon) ≠ .ok msg) ∧
        (getFlash w r).2 = ([], [], none) ∨
      ∃ msg, c.Value.count colon = 1 ∧ DecodeString (afterFirst c.Value colon) = .ok msg ∧
        (getFlash w r).2 = (beforeFirst c.Value colon, msg, none) := by
    intro c hc
    rw [getFlash_of_cookie w r c hc]
    by_cases hl : (Split c.Value colon).length = 2
    · have hcount : c.Value.count colon = 1 := by
        have := Split_length colon c.Value
        omega
      rw [if_neg (not_not.2 hl)]
      obtain ⟨p0, p1, hs⟩ : ∃ p0 p1, Split c.Value colon = [p0, p1] := by
        match hsp : Split c.Value colon, hl with
        | [a, b], _ => exact ⟨a, b, rfl⟩
      obtain ⟨h0, h1⟩ := Split_two_parts _ _ _ hs
      rw [hs]
      simp only [List.getD_cons_zero, List.getD_cons_succ]
      rw [h0, h1]
      cases hd : DecodeString (afterFirst c.Value colon) with
      | ok msg => exact Or.inr ⟨msg, hcount, rfl, rfl⟩
      | error e => exact Or.inl ⟨Or.inr (Or.inr (fun msg h => by cases h)), rfl⟩
    · rw [if_pos hl]
      exact Or.inl ⟨Or.inl hl, rfl⟩
  refine ⟨fun h => by rw [getFlash_of_no_cookie w r h], ?_, ?_, ?_⟩
  · intro c hc hbad
    rcases key c hc with ⟨_, h⟩ | ⟨msg, h1, h2, _⟩
    · exact h
    · rcases hbad with hb | hb | hb
      · have := Split_length colon c.Value
        omega
      · exact absurd h1 hb
      · exact absurd h2 (hb msg)
  · intro hne
    cases hc : r.Cookie (lit "flash") with
    | error e =>
      have he := Cookie_error r _ e hc
      subst he
      simp [getFlash, hc] at hne
    | ok c =>
      rcases key c hc with ⟨_, h⟩ | ⟨msg, h1, h2, h3⟩
      · rw [h] at hne
        simp at hne
      · exact ⟨c, msg, rfl, h1, h2, h3⟩
  · cases hc : r.Cookie (lit "flash") with
    | error e =>
      have he := Cookie_error r _ e hc
      subst he
      simp [getFlash, hc]
    | ok c =>
      rcases key c hc with ⟨_, h⟩ | ⟨msg, _, _, h3⟩
      · rw [h]
      · rw [h3]

/-! ### The cookie store -/

theorem jarReceive_SetCookie (now : Int) (jar : List Cookie) (w : ResponseWriter) (c : Cookie)
    (hn : c.Name = lit "flash") :
    jarReceive now jar (SetCookie w c) =
      jarStore now (jarReceive now jar w) { c with Value := sanitizeCookieValue c.Value } := by
  rw [SetCookie_flash w c hn]
  simp [jarReceive, List.foldl_append]

theorem jarStore_clearFlash (now : Int) (jar : List Cookie) :
    jarStore now jar clearFlash = jar.filter (fun d => d.Name ≠ lit "flash") := by
  simp [jarStore, clearFlash]

theorem jarStore_flash (now : Int) (jar : List Cookie) (v : GoString) :
    jarStore now jar { Name := lit "flash", Value := v, MaxAge := 600 } =
      jar.filter (fun d => d.Name ≠ lit "flash") ++
        [{ Name := lit "flash", Value := v, MaxAge := 600 }] := by
  simp [jarStore]

theorem no_flash_after_filter (jar : List Cookie) :
    ∀ c ∈ readCookies (jar.filter (fun d => d.Name ≠ lit "flash")), c.Name ≠ lit "flash" := by
  intro c hc hn
  obtain ⟨d, hd, hdn⟩ := readCookies_name _ c hc
  have := (List.mem_filter.1 hd).2
  simp [hdn, hn] at this

theorem Cookie_after_store (jar : List Cookie) (r : Request) (c : Cookie) (v : GoString)
    (hc : c.Name = lit "flash") (hv : parseCookieValue c.Value = some v) :
    (jarRequest (jar.filter (fun d => d.Name ≠ lit "flash") ++ [c]) r).Cookie (lit "flash") =
      .ok { Name := lit "flash", Value := v } := by
  have hne : lit "flash" ≠ [] := by decide
  have hnone : (readCookies (jar.filter (fun d => d.Name ≠ lit "flash"))).find?
      (fun c => c.Name = lit "flash") = none := by
    rw [List.find?_eq_none]
    intro d hd
    simpa using no_flash_after_filter jar d hd
  have hone : readCookies [c] = [{ Name := lit "flash", Value := v }] := by
    simp [readCookies, hc, flash_name_valid, hv]
  simp only [Request.Cookie, jarRequest, if_neg hne, readCookies_append, List.find?_append,
    hnone, hone]
  simp

theorem getFlash_writer_of_cookie (w : ResponseWriter) (r : Request) (c : Cookie)
    (h : r.Cookie (lit "flash") = .ok c) : (getFlash w r).1 = SetCookie w clearFlash := by
  rw [getFlash_of_cookie w r c h]
  split
  · rfl
  · split <;> rfl

/-- C7, as stated, fails for a kind that holds `':'` and for a kind that holds a byte
`net/http` does not allow in a cookie value: after `setFlash("a:b", "x")` the first
`getFlash` returns `("", "", nil)`, and after `setFlash("a;b", "x")` it returns
`("ab", "x", nil)`; neither is the message. -/
theorem flash_first_read_not_the_message :
    (getFlash {} (jarRequest (jarReceive 100 [] (setFlash {} (lit "a:b") (lit "x"))) {})).2 =
      ([], [], none) ∧
    (getFlash {} (jarRequest (jarReceive 100 [] (setFlash {} (lit "a;b") (lit "x"))) {})).2 =
      (lit "ab", lit "x", none) ∧
    (lit "ab", lit "x", (none : Option GoError)) ≠ (lit "a;b", lit "x", none) := by
  decide

/-- C7 (amended). Flash consumed at most once.  `getFlash` adds the clearing
`Set-Cookie` for `flash` (`MaxAge: -1`, `Expires: time.Unix(1, 0)`) exactly when the
request carries a flash cookie, whatever its value.  So with a cookie store that honours
`Set-Cookie`, after `setFlash(kind, text)` for a kind that holds no `':'` and only bytes
valid in a cookie value the first `getFlash` returns the message (for any kind without
`':'`, the kind without its invalid bytes, and the text); and for every kind and text
the store then holds no flash cookie, and a second `getFlash` finds none and returns
`("", "", nil)`. -/
theorem flash_consumed_once (now : Int) (jar : List Cookie) (w0 w1 w2 : ResponseWriter)
    (r1 r2 : Request) (kind text : GoString) :
    (∀ (w : ResponseWriter) (r : Request),
      (getFlash w r).1.cookies =
        if ∃ c ∈ r.cookies, c.Name = lit "flash" then w.cookies ++ [clearFlash] else w.cookies) ∧
    clearFlash.MaxAge < 0 ∧ clearFlash.Expires = some 1 ∧
    (colon ∉ kind → (∀ b ∈ kind, validCookieValueByte b = true) →
      (getFlash w1 (jarRequest (jarReceive now jar (setFlash w0 kind text)) r1)).2 =
        (kind, text, none)) ∧
    (colon ∉ kind →
      (getFlash w1 (jarRequest (jarReceive now jar (setFlash w0 kind text)) r1)).2 =
        (kind.filter validCookieValueByte, text, none)) ∧
    (∀ c ∈ jarReceive now (jarReceive now jar (setFlash w0 kind text))
        (getFlash w1 (jarRequest (jarReceive now jar (setFlash w0 kind text)) r1)).1,
      c.Name ≠ lit "flash") ∧
    (jarRequest (jarReceive now (jarReceive now jar (setFlash w0 kind text))
        (getFlash w1 (jarRequest (jarReceive now jar (setFlash w0 kind text)) r1)).1)
      r2).Cookie (lit "flash") = .error .ErrNoCookie ∧
    (getFlash w2 (jarRequest (jarReceive now (jarReceive now jar (setFlash w0 kind text))
        (getFlash w1 (jarRequest (jarReceive now jar (setFlash w0 kind text)) r1)).1)
      r2)).2 = ([], [], none) := by
  have hclear : ∀ (w : ResponseWriter) (r : Request),
      (getFlash w r).1.cookies =
        if ∃ c ∈ r.cookies, c.Name = lit "flash" then w.cookies ++ [clearFlash]
        else w.cookies := by
    intro w r
    by_cases h : ∃ c ∈ r.cookies, c.Name = lit "flash"
    · rw [if_pos h]
      obtain ⟨c, hc⟩ := (Cookie_flash_iff r).2 h
      rw [getFlash_writer_of_cookie w r c hc, SetCookie_clearFlash]
    · rw [if_neg h, getFlash_of_no_cookie w r (fun c hc hn => h ⟨c, hc, hn⟩)]
  have hjar1 : jarReceive now jar (setFlash w0 kind text) =
      (jarReceive now jar w0).filter (fun d => d.Name ≠ lit "flash") ++
        [{ Name := lit "flash",
           Value := sanitizeCookieValue (kind ++ colon :: EncodeToString text),
           MaxAge := 600 }] := by
    rw [setFlash, jarReceive_SetCookie _ _ _ _ rfl, lit_colon]
    simpa using jarStore_flash now (jarReceive now jar w0)
      (sanitizeCookieValue (kind ++ colon :: EncodeToString text))
  have hcookie : (jarRequest (jarReceive now jar (setFlash w0 kind text)) r1).Cookie (lit "flash") =
      .ok { Name := lit "flash",
            Value := (kind ++ colon :: EncodeToString text).filter validCookieValueByte } := by
    rw [hjar1]
    exact Cookie_after_store _ _ _ _ rfl (parse_sanitize _)
  have hjar2 : ∀ c ∈ jarReceive now (jarReceive now jar (setFlash w0 kind text))
      (getFlash w1 (jarRequest (jarReceive now jar (setFlash w0 kind text)) r1)).1,
      c.Name ≠ lit "flash" := by
    rw [getFlash_writer_of_cookie _ _ _ hcookie]
    rw [jarReceive_SetCookie _ _ _ _ rfl]
    have hsame : ({ clearFlash with Value := sanitizeCookieValue clearFlash.Value } : Cookie) =
        clearFlash := rfl
    rw [hsame, jarStore_clearFlash]
    intro c hc
    simpa using (List.mem_filter.1 hc).2
  have hreq2 : ∀ c ∈ (jarRequest (jarReceive now (jarReceive now jar (setFlash w0 kind text))
      (getFlash w1 (jarRequest (jarReceive now jar (setFlash w0 kind text)) r1)).1) r2).cookies,
      c.Name ≠ lit "flash" := by
    intro c hc hn
    obtain ⟨d, hd, hdn⟩ := readCookies_name _ c hc
    exact hjar2 d hd (hdn.trans hn)
  have hfirst : colon ∉ kind →
      getFlash w1 (jarRequest (jarReceive now jar (setFlash w0 kind text)) r1) =
        (SetCookie w1 clearFlash, kind.filter validCookieValueByte, text, none) :=
    fun hkind => getFlash_of_written w1 _ _ kind text hkind hcookie (parse_sanitize _)
  refine ⟨hclear, by decide, rfl, ?_, ?_, hjar2, ?_, ?_⟩
  · intro hkind hvalid
    rw [hfirst hkind, List.filter_eq_self.2 hvalid]
  · intro hkind
    rw [hfirst hkind]
  · cases hc : (jarRequest (jarReceive now (jarReceive now jar (setFlash w0 kind text))
        (getFlash w1 (jarRequest (jarReceive now jar (setFlash w0 kind text)) r1)).1)
      r2).Cookie (lit "flash") with
    | error e => rw [Cookie_error _ _ e hc]
    | ok c =>
      obtain ⟨d, hd, hn⟩ := (Cookie_flash_iff _).1 ⟨c, hc⟩
      exact absurd hn (hreq2 d hd)
  · have h := getFlash_of_no_cookie w2 (jarRequest (jarReceive now
        (jarReceive now jar (setFlash w0 kind text))
        (getFlash w1 (jarRequest (jarReceive now jar (setFlash w0 kind text)) r1)).1) r2) hreq2
    rw [h]

set_option maxRecDepth 100000 in
/-- C7 (amended), at `setFlash("error", "bad link")` with an empty cookie store: the
first `getFlash` returns the message, the second returns nothing. -/
theorem flash_consumed_once_witness :
    (getFlash {} (jarRequest (jarReceive 100 [] (setFlash {} (lit "error") (lit "bad link")))
      {})).2 = (lit "error", lit "bad link", none) ∧
    (getFlash {} (jarRequest (jarReceive 100
        (jarReceive 100 [] (setFlash {} (lit "error") (lit "bad link")))
        (getFlash {} (jarRequest (jarReceive 100 [] (setFlash {} (lit "error") (lit "bad link")))
          {})).1) {})).2 = ([], [], none) :=
  have h := flash_consumed_once 100 [] {} {} {} {} {} (lit "error") (lit "bad link")
  ⟨h.2.2.2.1 (by decide) (by decide), h.2.2.2.2.2.2.2⟩

/-! ## Response writers -/

theorem find?_filter_ne {α β : Type} [DecidableEq α] (k k2 : α) (h : k2 ≠ k) :
    ∀ l : List (α × β), (l.filter (fun kv => kv.1 ≠ k)).find? (fun kv => kv.1 = k2) =
      l.find? (fun kv => kv.1 = k2)
  | [] => rfl
  | kv :: l => by
    have ih := find?_filter_ne k k2 h l
    by_cases h1 : kv.1 = k
    · have h2 : ¬ kv.1 = k2 := fun e => h (e.symm.trans h1)
      rw [List.filter_cons_of_neg (by simpa using h1),
        List.find?_cons_of_neg _ (by simpa using h2), ih]
    · rw [List.filter_cons_of_pos (by simpa using h1)]
      by_cases h2 : kv.1 = k2
      · rw [List.find?_cons_of_pos _ (by simpa using h2),
          List.find?_cons_of_pos _ (by simpa using h2)]
      · rw [List.find?_cons_of_neg _ (by simpa using h2),
          List.find?_cons_of_neg _ (by simpa using h2), ih]

theorem find?_filter_self {α β : Type} [DecidableEq α] (k : α) (l : List (α × β)) :
    (l.filter (fun kv => kv.1 ≠ k)).find? (fun kv => kv.1 = k) = none := by
  rw [List.find?_eq_none]
  intro kv hkv
  simpa using (List.mem_filter.1 hkv).2

theorem Get_Set_self (w : ResponseWriter) (k v : GoString) : (w.Set k v).Get k = some v := by
  simp [ResponseWriter.Set, ResponseWriter.Get, List.find?_append, find?_filter_self]

theorem Get_Set_ne (w : ResponseWriter) (k k2 v : GoString) (h : k2 ≠ k) :
    (w.Set k v).Get k2 = w.Get k2 := by
  have h2 : ¬ k = k2 := fun e => h e.symm
  simp only [ResponseWriter.Set, ResponseWriter.Get, List.find?_append, find?_filter_ne k k2 h]
  cases List.find? (fun kv => kv.1 = k2) w.header <;> simp [List.find?, h2]

theorem Get_WriteHeader (w : ResponseWriter) (code : Nat) (k : GoString) :
    (w.WriteHeader code).Get k = w.Get k := by
  unfold ResponseWriter.WriteHeader
  split <;> rfl

theorem status_WriteHeader (w : ResponseWriter) (code : Nat) (h : w.status = none) :
    (w.WriteHeader code).status = some code := by
  simp [ResponseWriter.WriteHeader, h]

theorem cookies_WriteHeader (w : ResponseWriter) (code : Nat) :
    (w.WriteHeader code).cookies = w.cookies := by
  unfold ResponseWriter.WriteHeader
  split <;> rfl

theorem rendered_WriteHeader (w : ResponseWriter) (code : Nat) :
    (w.WriteHeader code).rendered = w.rendered := by
  unfold ResponseWriter.WriteHeader
  split <;> rfl

theorem Error_cookies (w : ResponseWriter) (msg : GoString) (code : Nat) :
    (Error w msg code).cookies = w.cookies := by
  simp [Error, cookies_WriteHeader, ResponseWriter.Set]

theorem Error_rendered (w : ResponseWriter) (msg : GoString) (code : Nat) :
    (Error w msg code).rendered = w.rendered := by
  simp [Error, rendered_WriteHeader, ResponseWriter.Set]

theorem Error_status (w : ResponseWriter) (msg : GoString) (code : Nat) (h : w.status = none) :
    (Error w msg code).status = some code := by
  simp only [Error]
  exact status_WriteHeader _ _ (by simp [ResponseWriter.Set, h])

theorem Error_Get (w : ResponseWriter) (msg : GoString) (code : Nat) (k : GoString)
    (h1 : k ≠ lit "Content-Type") (h2 : k ≠ lit "X-Content-Type-Options") :
    (Error w msg code).Get k = w.Get k := by
  have h : (Error w msg code).Get k =
      (((w.Set (lit "Content-Type") (lit "text/plain; charset=utf-8")).Set
        (lit "X-Content-Type-Options") (lit "nosniff")).WriteHeader code).Get k := rfl
  rw [h, Get_WriteHeader, Get_Set_ne _ _ _ _ h2, Get_Set_ne _ _ _ _ h1]

theorem Redirect_cookies (w : ResponseWriter) (r : Request) (url : GoString) (code : Nat) :
    (Redirect w r url code).cookies = w.cookies := by
  simp only [Redirect]
  rw [cookies_WriteHeader]
  split <;> simp [ResponseWriter.Set]

theorem Redirect_post_root (w : ResponseWriter) (r : Request) (hw : w.status = none)
    (hpath : r.Path = lit "/") (hpost : r.Method = lit "POST") :
    (Redirect w r [] 303).status = some 303 ∧
      (Redirect w r [] 303).Get (lit "Location") = some (lit "/") := by
  have hm : ¬ (lit "POST" = lit "GET" ∨ lit "POST" = lit "HEAD") := by decide
  have htarget : (if hasSchemeOrHost [] then ([] : GoString)
      else
        let oldpath := if lit "/" = [] then lit "/" else lit "/"
        let url : GoString := if ([] : GoString) = [] ∨ ([] : GoString).head? ≠ some slash
          then pathDir oldpath ++ [] else []
        let path := url.takeWhile (fun c => c ≠ 63)
        let query := url.dropWhile (fun c => c ≠ 63)
        let trailing := HasSuffix path (lit "/")
        let cleaned := Clean path
        let cleaned := if trailing ∧ ¬ HasSuffix cleaned (lit "/") then cleaned ++ lit "/"
          else cleaned
        cleaned ++ query) = lit "/" := by decide
  have hesc : hexEscapeNonASCII (lit "/") = lit "/" := by decide
  simp only [Redirect, hpath, hpost, hm, and_false, if_false] at htarget ⊢
  rw [htarget, hesc]
  exact ⟨status_WriteHeader _ _ (by simp [ResponseWriter.Set, hw]),
    by rw [Get_WriteHeader, Get_Set_self]⟩

/-! ## `indexHandler`: adding a magnet link -/

theorem indexHandler_post (client : Client) (templates : GoString → indexData → Option GoError)
    (w : ResponseWriter) (r : Request) (hpath : r.Path = lit "/") (hpost : r.Method = lit "POST")
    (hparse : r.parseFormError = none) :
    indexHandler client templates w r =
      (Redirect
        (if r.FormValue (lit "magnet") ≠ [] then
          if HasPrefix (r.FormValue (lit "magnet")) (lit "magnet:") then
            match client.AddMagnet (r.FormValue (lit "magnet")) with
            | .error err =>
              (setFlash w (lit "error") err.Error,
                [Event.AddMagnet (r.FormValue (lit "magnet")), Event.Println err.Error])
            | .ok t => (w, [Event.AddMagnet (r.FormValue (lit "magnet")), Event.goAddTorrent t])
          else (setFlash w (lit "error") (lit "Not a magnet link!"), [])
        else (w, [])).1 r [] 303,
        (if r.FormValue (lit "magnet") ≠ [] then
          if HasPrefix (r.FormValue (lit "magnet")) (lit "magnet:") then
            match client.AddMagnet (r.FormValue (lit "magnet")) with
            | .error err =>
              (setFlash w (lit "error") err.Error,
                [Event.AddMagnet (r.FormValue (lit "magnet")), Event.Println err.Error])
            | .ok t => (w, [Event.AddMagnet (r.FormValue (lit "magnet")), Event.goAddTorrent t])
          else (setFlash w (lit "error") (lit "Not a magnet link!"), [])
        else (w, [])).2) := by
  simp only [indexHandler, hpath, hpost, hparse, ne_eq, not_true_eq_false, if_false, if_true]

theorem indexHandler_post_parse_error (client : Client)
    (templates : GoString → indexData → Option GoError) (w : ResponseWriter) (r : Request)
    (err : GoError) (hpath : r.Path = lit "/") (hpost : r.Method = lit "POST")
    (hparse : r.parseFormError = some err) :
    indexHandler client templates w r = (Error w err.Error 500, []) := by
  simp only [indexHandler, hpath, hpost, hparse, ne_eq, not_true_eq_false, if_false, if_true]

theorem status_setFlash (w : ResponseWriter) (kind text : GoString) :
    (setFlash w kind text).status = w.status := SetCookie_status _ _

/-- C2, as stated, fails on the empty string: it does not start with `magnet:`, and
for a POST to `/` whose `magnet` field is empty the handler sets no cookie at all. -/
theorem empty_magnet_sets_no_flash :
    HasPrefix (({ Method := lit "POST", form := [(lit "magnet", [])] } : Request).FormValue
      (lit "magnet")) (lit "magnet:") = false ∧
    (indexHandler idleClient goodTemplates {}
      { Method := lit "POST", form := [(lit "magnet", [])] }).1.cookies = [] ∧
    flashWritten (indexHandler idleClient goodTemplates {}
      { Method := lit "POST", form := [(lit "magnet", [])] }).1 = none := by
  decide

/-- C2 (amended). For a POST to `/` whose `magnet` field does not start with `magnet:`,
the handler calls neither `client.AddMagnet` nor `addTorrent` (its trace is empty); when
the form parses and the field is not empty it sets the flash cookie
`error:` + base64url(`Not a magnet link!`) with `MaxAge` 600; when the form does not
parse or the field is empty it sets no cookie. -/
theorem non_magnet_not_added (client : Client)
    (templates : GoString → indexData → Option GoError) (w : ResponseWriter) (r : Request)
    (hpath : r.Path = lit "/") (hpost : r.Method = lit "POST")
    (hnm : HasPrefix (r.FormValue (lit "magnet")) (lit "magnet:") = false) :
    (indexHandler client templates w r).2 = [] ∧
    (r.parseFormError = none → r.FormValue (lit "magnet") ≠ [] →
      (indexHandler client templates w r).1.cookies = w.cookies ++
        [{ Name := lit "flash", Value := lit "error:Tm90IGEgbWFnbmV0IGxpbmsh", MaxAge := 600 }] ∧
      flashWritten (indexHandler client templates w r).1 =
        some (lit "error" ++ lit ":" ++ EncodeToString (lit "Not a magnet link!"))) ∧
    (r.parseFormError ≠ none ∨ r.FormValue (lit "magnet") = [] →
      (indexHandler client templates w r).1.cookies = w.cookies) := by
  have hval : lit "error" ++ lit ":" ++ EncodeToString (lit "Not a magnet link!") =
      lit "error:Tm90IGEgbWFnbmV0IGxpbmsh" := by decide
  cases hparse : r.parseFormError with
  | some err =>
    rw [indexHandler_post_parse_error client templates w r err hpath hpost hparse]
    exact ⟨rfl, (fun h => nomatch h), (fun _ => Error_cookies _ _ _)⟩
  | none =>
    rw [indexHandler_post client templates w r hpath hpost hparse]
    by_cases hempty : r.FormValue (lit "magnet") = []
    · simp only [hempty, ne_eq, not_true_eq_false, if_false, Redirect_cookies]
      exact ⟨trivial, (fun _ h => h.elim), (fun _ => trivial)⟩
    · simp only [hempty, ne_eq, not_false_eq_true, if_true, hnm, Bool.false_eq_true, if_false,
        Redirect_cookies, flashWritten]
      refine ⟨trivial, (fun _ _ => ?_), (fun h => ?_)⟩
      · rw [setFlash, SetCookie_flash _ _ rfl]
        have hsan : sanitizeCookieValue (lit "error:Tm90IGEgbWFnbmV0IGxpbmsh") =
            lit "error:Tm90IGEgbWFnbmV0IGxpbmsh" := by decide
        simp [hval, hsan]
      · rcases h with h | h
        · exact absurd trivial h
        · exact absurd h (by simp)

/-- C2 (amended), at the field value `hello`: no engine call, and the error flash is
set. -/
theorem non_magnet_not_added_witness :
    (indexHandler idleClient goodTemplates {}
      { Method := lit "POST", form := [(lit "magnet", lit "hello")] }).2 = [] ∧
    (indexHandler idleClient goodTemplates {}
      { Method := lit "POST", form := [(lit "magnet", lit "hello")] }).1.cookies =
      [{ Name := lit "flash", Value := lit "error:Tm90IGEgbWFnbmV0IGxpbmsh", MaxAge := 600 }] :=
  have h := non_magnet_not_added idleClient goodTemplates {}
    { Method := lit "POST", form := [(lit "magnet", lit "hello")] } (by decide) (by decide)
    (by decide)
  ⟨h.1, (h.2.1 (by decide) (by decide)).1⟩

/-! ## `indexHandler`: the redirect after a POST -/

/-- C4, as stated, fails when form parsing fails: the handler answers 500 and sets no
`Location`. -/
theorem post_parse_failure_is_500 :
    (indexHandler idleClient goodTemplates {}
      { Method := lit "POST", parseFormError := some (.other (lit "invalid URL escape")) }).1.status
        = some 500 ∧
    (indexHandler idleClient goodTemplates {}
      { Method := lit "POST", parseFormError := some (.other (lit "invalid URL escape")) }).1.Get
        (lit "Location") = none := by
  decide

/-- C4 (amended). For every POST to `/` whose form parses, whatever the field holds
and whatever the engine answers, the handler responds with status 303 and
`Location: /`; when the form does not parse it responds with status 500 and no
`Location`. -/
theorem post_redirects_to_root (client : Client)
    (templates : GoString → indexData → Option GoError) (w : ResponseWriter) (r : Request)
    (hw : w.status = none) (hloc : w.Get (lit "Location") = none)
    (hpath : r.Path = lit "/") (hpost : r.Method = lit "POST") :
    (r.parseFormError = none →
      (indexHandler client templates w r).1.status = some 303 ∧
      (indexHandler client templates w r).1.Get (lit "Location") = some (lit "/")) ∧
    (r.parseFormError ≠ none →
      (indexHandler client templates w r).1.status = some 500 ∧
      (indexHandler client templates w r).1.Get (lit "Location") = none) := by
  constructor
  · intro hparse
    rw [indexHandler_post client templates w r hpath hpost hparse]
    apply Redirect_post_root _ r _ hpath hpost
    split
    · split
      · split <;> simp [status_setFlash, hw]
      · simp [status_setFlash, hw]
    · exact hw
  · intro hparse
    cases he : r.parseFormError with
    | none => exact absurd he hparse
    | some err =>
      rw [indexHandler_post_parse_error client templates w r err hpath hpost he]
      exact ⟨Error_status _ _ _ hw,
        by rw [Error_Get _ _ _ _ (by decide) (by decide)]; exact hloc⟩

/-- C4 (amended), at a POST to `/` carrying a magnet link the engine rejects: 303 and
`Location: /`. -/
theorem post_redirects_to_root_witness :
    (indexHandler idleClient goodTemplates {}
      { Method := lit "POST", form := [(lit "magnet", lit "magnet:?xt=urn:btih:00")] }).1.status
        = some 303 ∧
    (indexHandler idleClient goodTemplates {}
      { Method := lit "POST", form := [(lit "magnet", lit "magnet:?xt=urn:btih:00")] }).1.Get
        (lit "Location") = some (lit "/") :=
  (post_redirects_to_root idleClient goodTemplates {}
    { Method := lit "POST", form := [(lit "magnet", lit "magnet:?xt=urn:btih:00")] }
    rfl rfl (by decide) (by decide)).1 rfl

/-! ## `strings.Compare` is a total preorder -/

theorem Compare_swap : ∀ a b : GoString, Compare b a = - Compare a b
  | [], [] => rfl
  | [], _ :: _ => rfl
  | _ :: _, [] => rfl
  | x :: xs, y :: ys => by
    have ih := Compare_swap xs ys
    simp only [Compare]
    rcases lt_trichotomy x y with h | h | h
    · simp [h, not_lt_of_gt h]
    · subst h
      simp [ih]
    · simp [h, not_lt_of_gt h]

theorem Compare_trans : ∀ a b c : GoString,
    Compare a b ≤ 0 → Compare b c ≤ 0 → Compare a c ≤ 0
  | [], _, [] => fun _ _ => by simp [Compare]
  | [], _, _ :: _ => fun _ _ => by simp [Compare]
  | _ :: _, [], _ => fun h _ => by simp [Compare] at h
  | _ :: _, _ :: _, [] => fun _ h => by simp [Compare] at h
  | x :: xs, y :: ys, z :: zs => by
    have ih := Compare_trans xs ys zs
    simp only [Compare]
    intro h1 h2
    rcases lt_trichotomy x y with hxy | hxy | hxy
    · rcases lt_trichotomy y z with hyz | hyz | hyz
      · simp [lt_trans hxy hyz]
      · subst hyz
        simp [hxy]
      · simp [hyz, not_lt_of_gt hyz] at h2
    · subst hxy
      rcases lt_trichotomy x z with hyz | hyz | hyz
      · simp [hyz]
      · subst hyz
        simp only [lt_self_iff_false, if_false] at h1 h2 ⊢
        exact ih h1 h2
      · simp [hyz, not_lt_of_gt hyz] at h2
    · simp [hxy, not_lt_of_gt hxy] at h1

/-- `strings.Compare` is negative exactly on the pairs in byte-wise lexicographic
order. -/
theorem Compare_neg_iff_lex : ∀ a b : GoString,
    Compare a b < 0 ↔ List.Lex (fun x y : Byte => x < y) a b
  | [], [] => by
    simp only [Compare, lt_self_iff_false, false_iff]
    intro h
    cases h
  | [], y :: ys => by
    simp only [Compare, Int.reduceNeg, Int.reduceLT, true_iff]
    exact List.Lex.nil
  | x :: xs, [] => by
    simp only [Compare, Int.reduceLT, false_iff]
    intro h
    cases h
  | x :: xs, y :: ys => by
    have ih := Compare_neg_iff_lex xs ys
    simp only [Compare]
    rcases lt_trichotomy x y with h | h | h
    · simp only [h, if_true, Int.reduceNeg, Int.reduceLT, true_iff]
      exact List.Lex.rel h
    · subst h
      simp only [lt_self_iff_false, if_false, ih]
      constructor
      · intro h
        exact List.Lex.cons h
      · intro h
        cases h with
        | cons h => exact h
        | rel h => exact absurd h (lt_irrefl x)
    · simp only [not_lt_of_gt h, h, if_false, if_true, Int.reduceLT, false_iff]
      intro h2
      cases h2 with
      | cons h3 => exact absurd h (lt_irrefl x)
      | rel h3 => exact absurd h3 (not_lt_of_gt h)

/-! ## `sort.Slice` sorts -/

theorem insertBack_perm {α : Type} (less : α → α → Bool) (x : α) :
    ∀ l : List α, (insertBack less x l).Perm (x :: l)
  | [] => List.Perm.refl _
  | y :: ys => by
    simp only [insertBack]
    split
    · exact ((insertBack_perm less x ys).cons y).trans (List.Perm.swap x y ys)
    · exact List.Perm.refl _

theorem insertBack_pairwise {α : Type} (less : α → α → Bool)
    (hasymm : ∀ a b, less a b = true → less b a = false)
    (htrans : ∀ a b c, less a b = false → less b c = false → less a c = false) (x : α) :
    ∀ l : List α, l.Pairwise (fun a b => less a b = false) →
      (insertBack less x l).Pairwise (fun a b => less a b = false)
  | [], _ => by simp [insertBack]
  | y :: ys, h => by
    have hy := List.pairwise_cons.1 h
    simp only [insertBack]
    split
    · rename_i hlt
      refine List.pairwise_cons.2 ⟨?_, insertBack_pairwise less hasymm htrans x ys hy.2⟩
      intro z hz
      rcases List.mem_cons.1 ((insertBack_perm less x ys).mem_iff.1 hz) with e | e
      · subst e
        exact hasymm _ _ hlt
      · exact hy.1 z e
    · rename_i hlt
      have hxy : less x y = false := by simpa using hlt
      refine List.pairwise_cons.2 ⟨?_, h⟩
      intro z hz
      rcases List.mem_cons.1 hz with e | e
      · subst e
        exact hxy
      · exact htrans _ _ _ hxy (hy.1 z e)

theorem foldl_insertBack {α : Type} (less : α → α → Bool)
    (hasymm : ∀ a b, less a b = true → less b a = false)
    (htrans : ∀ a b c, less a b = false → less b c = false → less a c = false) :
    ∀ (data sorted : List α), sorted.Pairwise (fun a b => less a b = false) →
      (data.foldl (fun sorted x => insertBack less x sorted) sorted).Pairwise
        (fun a b => less a b = false) ∧
      (data.foldl (fun sorted x => insertBack less x sorted) sorted).Perm (data.reverse ++ sorted)
  | [], sorted, h => ⟨h, by simp⟩
  | x :: xs, sorted, h => by
    obtain ⟨h1, h2⟩ := foldl_insertBack less hasymm htrans xs (insertBack less x sorted)
      (insertBack_pairwise less hasymm htrans x sorted h)
    refine ⟨h1, h2.trans ?_⟩
    simp only [List.reverse_cons, List.append_assoc, List.singleton_append]
    exact List.Perm.append_left _ (insertBack_perm less x sorted)

/-- The model of `sort.Slice` returns a permutation of its input in which no element is
less than an earlier one. -/
theorem SortSlice_sorted {α : Type} (less : α → α → Bool)
    (hasymm : ∀ a b, less a b = true → less b a = false)
    (htrans : ∀ a b c, less a b = false → less b c = false → less a c = false)
    (data : List α) :
    (SortSlice data less).Perm data ∧
      (SortSlice data less).Pairwise (fun a b => less b a = false) := by
  obtain ⟨h1, h2⟩ := foldl_insertBack less hasymm htrans data [] List.Pairwise.nil
  constructor
  · refine (List.reverse_perm _).trans (h2.trans ?_)
    simp
  · exact List.pairwise_reverse.2 h1

theorem SortSlice_by_name (ts : List Torrent) :
    (SortSlice ts (fun a b => decide (Compare a.Name b.Name < 0))).Perm ts ∧
      (SortSlice ts (fun a b => decide (Compare a.Name b.Name < 0))).Pairwise
        (fun a b => Compare a.Name b.Name ≤ 0) := by
  obtain ⟨h1, h2⟩ := SortSlice_sorted (fun a b : Torrent => decide (Compare a.Name b.Name < 0))
    (fun a b h => by
      have := Compare_swap a.Name b.Name
      simp only [decide_eq_true_eq, decide_eq_false_iff_not] at h ⊢
      omega)
    (fun a b c h1 h2 => by
      have e1 := Compare_swap a.Name b.Name
      have e2 := Compare_swap b.Name c.Name
      have e3 := Compare_swap a.Name c.Name
      simp only [decide_eq_false_iff_not] at h1 h2 ⊢
      have := Compare_trans c.Name b.Name a.Name (by omega) (by omega)
      omega) ts
  refine ⟨h1, h2.imp ?_⟩
  intro a b h
  have := Compare_swap a.Name b.Name
  simp only [decide_eq_false_iff_not] at h
  omega

theorem Compare_eq_zero : ∀ a b : GoString, Compare a b = 0 → a = b
  | [], [], _ => rfl
  | [], _ :: _, h => by simp [Compare] at h
  | _ :: _, [], h => by simp [Compare] at h
  | x :: xs, y :: ys, h => by
    simp only [Compare] at h
    rcases lt_trichotomy x y with hxy | hxy | hxy
    · simp [hxy] at h
    · subst hxy
      simp only [lt_self_iff_false, if_false] at h
      rw [Compare_eq_zero xs ys h]
    · simp [hxy, not_lt_of_gt hxy] at h

/-- The order in which names are listed does not depend on how `sort.Slice` sorts: every
permutation of the transfers that is in non-decreasing order of name shows the names in
the order the model does. -/
theorem sorted_names_unique (ts l : List Torrent) (hperm : l.Perm ts)
    (hsorted : l.Pairwise (fun a b => Compare a.Name b.Name ≤ 0)) :
    l.map (fun t => t.Name) =
      (SortSlice ts (fun a b => decide (Compare a.Name b.Name < 0))).map (fun t => t.Name) := by
  obtain ⟨h1, h2⟩ := SortSlice_by_name ts
  have hanti : IsAntisymm GoString (fun x y => Compare x y ≤ 0) :=
    ⟨fun a b hab hba => by
      have := Compare_swap a b
      exact Compare_eq_zero a b (by omega)⟩
  have hl : (l.map (fun t => t.Name)).Sorted (fun x y => Compare x y ≤ 0) :=
    (List.pairwise_map).2 hsorted
  have hs : ((SortSlice ts (fun a b => decide (Compare a.Name b.Name < 0))).map
      (fun t => t.Name)).Sorted (fun x y => Compare x y ≤ 0) := (List.pairwise_map).2 h2
  exact List.eq_of_perm_of_sorted ((hperm.trans h1.symm).map _) hl hs

/-! ## `indexHandler`: the listing -/

/-- C9. Listing order: on GET `/` (any method but POST) the handler executes the
template `index.html` once, and the list of transfers it passes is a permutation of
`client.Torrents()` in non-decreasing order of `Name()` under `strings.Compare`, that
is, no transfer comes after one whose name is greater in byte-wise lexicographic
order.  Transfers named `b`, `A`, `c` are passed in the order `A`, `b`, `c`. -/
theorem listing_sorted_by_name (client : Client)
    (templates : GoString → indexData → Option GoError) (w : ResponseWriter) (r : Request)
    (hpath : r.Path = lit "/") (hmethod : r.Method ≠ lit "POST") :
    ∃ data : indexData,
      (indexHandler client templates w r).1.rendered = w.rendered ++ [(lit "index.html", data)] ∧
      data.Torrents.Perm client.Torrents ∧
      data.Torrents.Pairwise (fun a b => Compare a.Name b.Name ≤ 0) ∧
      data.Torrents.Pairwise
        (fun a b => ¬ List.Lex (fun x y : Byte => x < y) b.Name a.Name) ∧
      data.FlashType = (getFlash w r).2.1 ∧ data.FlashMessage = (getFlash w r).2.2.1 := by
  have herr := getFlash_error_nil w r
  have hrend : (getFlash w r).1.rendered = w.rendered := by
    unfold getFlash
    split
    · split <;> rfl
    · simp only [SetCookie]
      split
      · rfl
      · split <;> rfl
  obtain ⟨hperm, hsorted⟩ := SortSlice_by_name client.Torrents
  refine ⟨{ FlashType := (getFlash w r).2.1, FlashMessage := (getFlash w r).2.2.1,
            Torrents := SortSlice client.Torrents (fun a b => Compare a.Name b.Name < 0) },
    ?_, hperm, hsorted, hsorted.imp ?_, rfl, rfl⟩
  · have hname : lit "index" ++ lit ".html" = lit "index.html" := by decide
    simp only [indexHandler, hpath, hmethod, ne_eq, not_true_eq_false, if_false]
    rcases hg : getFlash w r with ⟨w2, ft, fm, e⟩
    rw [hg] at herr hrend
    simp only at herr hrend
    subst herr
    simp only [renderTemplate, hname]
    split
    · rw [Error_rendered, hrend]
    · rw [hrend]
  · intro a b h hlex
    have h1 := (Compare_neg_iff_lex b.Name a.Name).2 hlex
    have h2 := Compare_swap a.Name b.Name
    omega

/-- C9, at transfers named `b`, `A`, `c`: they are listed in the order `A`, `b`, `c`. -/
theorem listing_sorted_by_name_witness :
    (indexHandler { idleClient with Torrents := [named (lit "b"), named (lit "A"), named (lit "c")] }
      goodTemplates {} {}).1.rendered =
      [(lit "index.html",
        { FlashMessage := [], FlashType := [],
          Torrents := [named (lit "A"), named (lit "b"), named (lit "c")] })] ∧
    ∃ data : indexData,
      (indexHandler { idleClient with Torrents := [named (lit "b"), named (lit "A"), named (lit "c")] }
        goodTemplates {} {}).1.rendered = [(lit "index.html", data)] ∧
      data.Torrents.Pairwise (fun a b => Compare a.Name b.Name ≤ 0) :=
  ⟨by decide,
    (listing_sorted_by_name
      { idleClient with Torrents := [named (lit "b"), named (lit "A"), named (lit "c")] }
      goodTemplates {} {} (by decide) (by decide)).imp (fun _ h => ⟨h.1, h.2.2.1⟩)⟩

/-! ## `torrentHandler` -/

theorem ServeStatus_code_ne_404 (st : ServeStatus) : st.code ≠ 404 := by
  cases st <;> decide

theorem torrentHandler_eval (client : Client) (serve : Request → File → ServeStatus)
    (w : ResponseWriter) (r : Request) (s : GoString) (hr : r.Path = lit "/torrent/" ++ s) :
    torrentHandler client serve w r =
      match Hash.FromHexString (beforeFirst s slash) with
      | .error _ => some (NotFound w r, [Event.Println (lit "[" ++ Join (Split s slash) (lit " ") ++ lit "]")])
      | .ok hash =>
        match client.Torrent hash with
        | none => some (NotFound w r, [Event.Println (lit "[" ++ Join (Split s slash) (lit " ") ++ lit "]")])
        | some t =>
          match t.Files with
          | none => none
          | some files =>
            match files.find? (fun f => f.Path = afterFirst s slash) with
            | none => some (NotFound w r, [Event.Println (lit "[" ++ Join (Split s slash) (lit " ") ++ lit "]")])
            | some file =>
              some (((w.Set (lit "Content-Disposition")
                (lit "attachment; filename=\"" ++ file.Path ++ lit "\"")).WriteHeader
                  (serve r file).code),
                [Event.Println (lit "[" ++ Join (Split s slash) (lit " ") ++ lit "]")] ++
                  [.NewReader file, .SetResponsive file, .ServeContent file.DisplayPath file,
                    .CloseReader file]) := by
  have hlen : ¬ (r.Path.length < (lit "/torrent/").length) := by
    rw [hr]; simp
  have hdrop : r.Path.drop (lit "/torrent/").length = s := by
    rw [hr]; exact List.drop_left _ _
  obtain ⟨hhead, htail⟩ := Split_head_tail slash s
  have hsl : lit "/" = [slash] := by decide
  have hnil : ¬ (Split s slash).length = 0 := by
    have := Split_length slash s
    omega
  unfold torrentHandler
  simp only [if_neg hlen, hdrop, hsl, hhead, htail, if_neg hnil]

/-- Resolution in `torrentHandler` when the metadata of the transfer is there: for every
path `"/torrent/" + s` that does not name a transfer whose metadata is pending, the
handler responds 404 (through `http.NotFound`, opening no reader and setting no
`Content-Disposition`) if and only if the part of `s` before its first `'/'` is not the
hex encoding of a hash the client knows or no file of that transfer has `Path()` equal
to the whole remainder of `s` after that `'/'`; otherwise it opens a reader on the
first file of `t.Files()` whose `Path()` is that remainder, and serves it as an
attachment. -/
theorem torrent_resolution (client : Client) (serve : Request → File → ServeStatus)
    (w : ResponseWriter) (r : Request) (s : GoString) (hw : w.status = none)
    (hcd : w.Get (lit "Content-Disposition") = none) (hr : r.Path = lit "/torrent/" ++ s)
    (hmeta : MetadataThere client s) :
    ∃ resp ev, torrentHandler client serve w r = some (resp, ev) ∧
      (resp.status = some 404 ↔ ¬ Resolves client s) ∧
      (¬ Resolves client s →
        resp = NotFound w r ∧ (∀ f, Event.NewReader f ∉ ev) ∧
          resp.Get (lit "Content-Disposition") = none) ∧
      (Resolves client s →
        ∃ h t files f, Hash.FromHexString (beforeFirst s slash) = .ok h ∧
          client.Torrent h = some t ∧ t.Files = some files ∧
          files.find? (fun f => f.Path = afterFirst s slash) = some f ∧
          Event.NewReader f ∈ ev ∧ Event.ServeContent f.DisplayPath f ∈ ev ∧
          resp.status = some (serve r f).code ∧
          resp.Get (lit "Content-Disposition") =
            some (lit "attachment; filename=\"" ++ f.Path ++ lit "\"")) := by
  have h404 : (NotFound w r).status = some 404 := Error_status _ _ _ hw
  have hcd404 : (NotFound w r).Get (lit "Content-Disposition") = none := by
    rw [NotFound, Error_Get _ _ _ _ (by decide) (by decide)]; exact hcd
  rw [torrentHandler_eval client serve w r s hr]
  cases hh : Hash.FromHexString (beforeFirst s slash) with
  | error e =>
    have hres : ¬ Resolves client s := by
      rintro ⟨h, t, files, f, h1, _⟩
      rw [hh] at h1
      cases h1
    dsimp only
    exact ⟨_, _, rfl, ⟨fun _ => hres, fun _ => h404⟩,
      (fun _ => ⟨rfl, (fun f hf => by simp at hf), hcd404⟩), (fun h => absurd h hres)⟩
  | ok hash =>
    dsimp only
    cases ht : client.Torrent hash with
    | none =>
      have hres : ¬ Resolves client s := by
        rintro ⟨h, t, files, f, h1, h2, _⟩
        rw [hh] at h1
        injection h1 with h1
        subst h1
        rw [ht] at h2
        cases h2
      dsimp only
      exact ⟨_, _, rfl, ⟨fun _ => hres, fun _ => h404⟩,
        (fun _ => ⟨rfl, (fun f hf => by simp at hf), hcd404⟩), (fun h => absurd h hres)⟩
    | some t =>
      dsimp only
      cases hfiles : t.Files with
      | none => exact absurd hfiles (hmeta hash t hh ht)
      | some files =>
        dsimp only
        cases hf : files.find? (fun f => f.Path = afterFirst s slash) with
        | none =>
          have hres : ¬ Resolves client s := by
            rintro ⟨h, t2, files2, f, h1, h2, h3, h4, h5⟩
            rw [hh] at h1
            injection h1 with h1
            subst h1
            rw [ht] at h2
            injection h2 with h2
            subst h2
            rw [hfiles] at h3
            injection h3 with h3
            subst h3
            have := List.find?_eq_none.1 hf f h4
            simp [h5] at this
          dsimp only
          exact ⟨_, _, rfl, ⟨fun _ => hres, fun _ => h404⟩,
            (fun _ => ⟨rfl, (fun f hf => by simp at hf), hcd404⟩), (fun h => absurd h hres)⟩
        | some file =>
          have hpath : file.Path = afterFirst s slash := by
            simpa using List.find?_some hf
          have hres : Resolves client s :=
            ⟨hash, t, files, file, hh, ht, hfiles, List.mem_of_find?_eq_some hf, hpath⟩
          have hstatus : ((w.Set (lit "Content-Disposition")
              (lit "attachment; filename=\"" ++ file.Path ++ lit "\"")).WriteHeader
                (serve r file).code).status = some (serve r file).code :=
            status_WriteHeader _ _ (by simp [ResponseWriter.Set, hw])
          dsimp only
          refine ⟨_, _, rfl, ⟨fun h => ?_, fun h => absurd hres h⟩, (fun h => absurd hres h),
            (fun _ => ⟨hash, t, files, file, rfl, ht, hfiles, hf, by simp, by simp, hstatus,
              ?_⟩)⟩
          · rw [hstatus] at h
            injection h with h
            exact absurd h (ServeStatus_code_ne_404 _)
          · rw [Get_WriteHeader, Get_Set_self]

/-- The resolution at `/torrent/<forty zeros>/demo/a/b.mkv` with a client that holds
that transfer and its metadata: the file is served with status 200, a path that names no
file of the transfer is answered with 404, and the general statement holds there. -/
theorem torrent_resolution_example :
    (torrentHandler demoClient (fun _ _ => .OK) {}
      { Path := lit "/torrent/" ++
          lit "0000000000000000000000000000000000000000/demo/a/b.mkv" }).map
        (fun out => out.1.status) = some (some 200) ∧
    (torrentHandler demoClient (fun _ _ => .OK) {}
      { Path := lit "/torrent/" ++ lit "0000000000000000000000000000000000000000/a/b.mkv" }).map
        (fun out => out.1.status) = some (some 404) ∧
    ∃ resp ev, torrentHandler demoClient (fun _ _ => .OK) {}
        { Path := lit "/torrent/" ++
            lit "0000000000000000000000000000000000000000/demo/a/b.mkv" } = some (resp, ev) ∧
      (resp.status = some 404 ↔
        ¬ Resolves demoClient (lit "0000000000000000000000000000000000000000/demo/a/b.mkv")) :=
  ⟨by decide, by decide,
    (torrent_resolution demoClient (fun _ _ => .OK) {}
      { Path := lit "/torrent/" ++
          lit "0000000000000000000000000000000000000000/demo/a/b.mkv" }
      (lit "0000000000000000000000000000000000000000/demo/a/b.mkv") rfl rfl rfl
      (by
        intro h t h1 h2
        have e1 : Hash.FromHexString
            (beforeFirst (lit "0000000000000000000000000000000000000000/demo/a/b.mkv") slash) =
            .ok demoTorrent.InfoHash := by decide
        rw [e1] at h1
        injection h1 with h1
        subst h1
        have e2 : demoClient.Torrent demoTorrent.InfoHash = some demoTorrent := by decide
        rw [e2] at h2
        injection h2 with h2
        subst h2
        decide)).imp
      (fun _ h => h.imp (fun _ h2 => ⟨h2.1, h2.2.1⟩))⟩

/-- C5, at `/torrent/<forty zeros>/x` when the client holds the transfer with the
all-zero hash and its metadata has not arrived (the state of a transfer just added by
magnet link): the hash segment is the hex encoding of a hash the client knows and no
file of the transfer has the path `x`, yet the handler writes no 404: it panics in
`t.Files()` and writes no response at all. -/
theorem torrent_pending_metadata_panics :
    Hash.FromHexString (lit "0000000000000000000000000000000000000000") =
      .ok pendingTorrent.InfoHash ∧
    pendingClient.Torrent pendingTorrent.InfoHash = some pendingTorrent ∧
    pendingTorrent.Files = none ∧
    ¬ Resolves pendingClient (lit "0000000000000000000000000000000000000000/x") ∧
    torrentHandler pendingClient (fun _ _ => .OK) {}
      { Path := lit "/torrent/0000000000000000000000000000000000000000/x" } = none := by
  refine ⟨by decide, by decide, rfl, ?_, by decide⟩
  rintro ⟨h, t, files, f, h1, h2, h3, _⟩
  have e1 : Hash.FromHexString
      (beforeFirst (lit "0000000000000000000000000000000000000000/x") slash) =
      .ok pendingTorrent.InfoHash := by decide
  rw [e1] at h1
  injection h1 with h1
  subst h1
  have e2 : pendingClient.Torrent pendingTorrent.InfoHash = some pendingTorrent := by decide
  rw [e2] at h2
  injection h2 with h2
  subst h2
  cases h3

/-! ## `addTorrent` -/

/-- C6. Persistence before acquisition.  A run of `addTorrent` whose metadata wait
completes returns and requests `t.DownloadAll()` exactly once, for `t` only; the wait,
the attempt to create the record and, when the file was created, the write of the
metadata all come before the request, and only the deferred close of the file comes
after it; the request is made whether or not the file could be created, and without a
file nothing is written and nothing is logged.  While the metadata does not arrive the
goroutine stays blocked and requests nothing. -/
theorem persistence_before_acquisition (env : TaskEnv) (t : Torrent) :
    (env.gotInfo = false → addTorrent env t = ([], false)) ∧
    (env.gotInfo = true →
      (addTorrent env t).2 = true ∧
      (addTorrent env t).1.count (Event.DownloadAll t) = 1 ∧
      (∀ t2, Event.DownloadAll t2 ∈ (addTorrent env t).1 → t2 = t) ∧
      ∃ pre post, (addTorrent env t).1 = pre ++ Event.DownloadAll t :: post ∧
        pre.head? = some (Event.GotInfo t) ∧
        Event.Create (persistPath t) (env.create (persistPath t)) ∈ pre ∧
        (env.create (persistPath t) = true → Event.WriteMetainfo t (persistPath t) ∈ pre) ∧
        (env.create (persistPath t) = false →
          ∀ p, Event.WriteMetainfo t p ∉ (addTorrent env t).1) ∧
        (∀ m, Event.Println m ∉ (addTorrent env t).1 ∧ Event.Fatal m ∉ (addTorrent env t).1) ∧
        (∀ e ∈ post, e = Event.CloseFile (persistPath t))) := by
  constructor
  · intro h
    simp [addTorrent, h]
  · intro h
    cases hc : env.create (persistPath t) with
    | true =>
      have hrun : addTorrent env t =
          ([.GotInfo t, .Create (persistPath t) true, .WriteMetainfo t (persistPath t),
            .DownloadAll t, .CloseFile (persistPath t)], true) := by
        simp only [persistPath, List.append_assoc] at hc
        simp [addTorrent, h, hc, persistPath]
      rw [hrun]
      refine ⟨rfl, by simp [List.count_cons], by simp, ?_⟩
      exact ⟨[.GotInfo t, .Create (persistPath t) true, .WriteMetainfo t (persistPath t)],
        [.CloseFile (persistPath t)], rfl, rfl, by simp, by simp, by simp, by simp, by simp⟩
    | false =>
      have hrun : addTorrent env t =
          ([.GotInfo t, .Create (persistPath t) false, .DownloadAll t], true) := by
        simp only [persistPath, List.append_assoc] at hc
        simp [addTorrent, h, hc, persistPath]
      rw [hrun]
      refine ⟨rfl, by simp [List.count_cons], by simp, ?_⟩
      exact ⟨[.GotInfo t, .Create (persistPath t) false], [], rfl, rfl, by simp, by simp,
        by simp, by simp, by simp⟩

/-! ## `main`: startup recovery -/

theorem loadTorrents_attempted (c : Client) :
    ∀ paths : List GoString, (loadTorrents c paths).filterMap attemptedLoad = paths
  | [] => rfl
  | f :: fs => by
    have ih := loadTorrents_attempted c fs
    simp only [loadTorrents, List.filterMap_append, ih]
    cases c.AddTorrentFromFile f <;> simp [attemptedLoad]

theorem loadTorrents_started (c : Client) :
    ∀ paths : List GoString, (loadTorrents c paths).filterMap startedTask =
      paths.filterMap (fun f => (c.AddTorrentFromFile f).toOption)
  | [] => rfl
  | f :: fs => by
    have ih := loadTorrents_started c fs
    simp only [loadTorrents, List.filterMap_append, ih, List.filterMap_cons]
    cases c.AddTorrentFromFile f <;> simp [startedTask, Except.toOption]

theorem loadTorrents_no_fatal (c : Client) :
    ∀ (paths : List GoString) (m : GoString), Event.Fatal m ∉ loadTorrents c paths
  | [], _ => by simp [loadTorrents]
  | f :: fs, m => by
    have ih := loadTorrents_no_fatal c fs m
    simp only [loadTorrents, List.mem_append, not_or]
    refine ⟨?_, ih⟩
    cases c.AddTorrentFromFile f <;> simp

theorem loadTorrents_logs (c : Client) :
    ∀ (paths : List GoString) (f : GoString), f ∈ paths →
      (∃ e, c.AddTorrentFromFile f = .error e) →
      Event.Println (lit "Error loading torrent " ++ f) ∈ loadTorrents c paths
  | [], _, h, _ => by simp at h
  | g :: gs, f, h, ⟨e, he⟩ => by
    simp only [loadTorrents, List.mem_append]
    rcases List.mem_cons.1 h with h1 | h1
    · subst h1
      left
      rw [he]
      simp
    · right
      exact loadTorrents_logs c gs f h1 ⟨e, he⟩

theorem main_of_started (env : StartEnv) (c : Client) (paths : List GoString)
    (hchdir : env.chdir env.rootDir = none)
    (hdir : env.stat env.storageDir = .ok true ∨
      ((∃ e, env.stat env.storageDir = .error e) ∧ env.mkdir env.storageDir = none))
    (hclient : env.newClient env.storageDir env.upload = .ok c)
    (hglob : env.glob (env.storageDir ++ lit "/*.torrent") = .ok paths) :
    ∃ pre : List Event,
      (pre = [.Chdir env.rootDir, .Stat env.storageDir] ∨
        pre = [.Chdir env.rootDir, .Stat env.storageDir, .Mkdir env.storageDir]) ∧
      main env = pre ++ [.Println (lit "Creating client"), .NewClient env.storageDir env.upload,
        .Glob (env.storageDir ++ lit "/*.torrent")] ++ loadTorrents c paths ++
        [.Println (lit "Handling requests on " ++ env.listenAddr),
          .ListenAndServe env.listenAddr] := by
  rcases hdir with h | ⟨⟨e, he⟩, hm⟩
  · exact ⟨_, Or.inl rfl, by simp [main, hchdir, h, hclient, hglob]⟩
  · exact ⟨_, Or.inr rfl, by simp [main, hchdir, he, hm, hclient, hglob]⟩

/-- C10. Startup recovery isolates per-record failures.  When startup reaches the
recovery loop (the directories and the client are there and the enumeration returns
`paths`), `main` attempts `c.AddTorrentFromFile` on every path, in order; it starts
`addTorrent` for exactly the records that loaded, in order; every record that fails is
logged; no failure is fatal, and `main` goes on to `http.ListenAndServe`. -/
theorem startup_recovery (env : StartEnv) (c : Client) (paths : List GoString)
    (hchdir : env.chdir env.rootDir = none)
    (hdir : env.stat env.storageDir = .ok true ∨
      ((∃ e, env.stat env.storageDir = .error e) ∧ env.mkdir env.storageDir = none))
    (hclient : env.newClient env.storageDir env.upload = .ok c)
    (hglob : env.glob (env.storageDir ++ lit "/*.torrent") = .ok paths) :
    (main env).filterMap attemptedLoad = paths ∧
    (main env).filterMap startedTask =
      paths.filterMap (fun f => (c.AddTorrentFromFile f).toOption) ∧
    (∀ f ∈ paths, (∃ e, c.AddTorrentFromFile f = .error e) →
      Event.Println (lit "Error loading torrent " ++ f) ∈ main env) ∧
    (∀ m, Event.Fatal m ∉ main env) ∧
    (main env).getLast? = some (.ListenAndServe env.listenAddr) := by
  obtain ⟨pre, hpre, hmain⟩ := main_of_started env c paths hchdir hdir hclient hglob
  rw [hmain]
  refine ⟨?_, ?_, ?_, ?_, ?_⟩
  · simp only [List.filterMap_append, loadTorrents_attempted]
    rcases hpre with h | h <;> subst h <;> simp [attemptedLoad]
  · simp only [List.filterMap_append, loadTorrents_started]
    rcases hpre with h | h <;> subst h <;> simp [startedTask]
  · intro f hf he
    simp only [List.mem_append]
    exact Or.inl (Or.inr (loadTorrents_logs c paths f hf he))
  · intro m
    have := loadTorrents_no_fatal c paths m
    rcases hpre with h | h <;> subst h <;> simp [this]
  · rw [show ∀ (l : List Event) (a b : Event), l ++ [a, b] = (l ++ [a]) ++ [b] from
      fun l a b => by simp, List.getLast?_concat]

/-- C10, at one corrupted and one well-formed record: both are tried, exactly the
well-formed one is started, and the server starts. -/
theorem startup_recovery_witness :
    (main demoStart).filterMap attemptedLoad =
      [lit "torrent/bad.torrent", lit "torrent/good.torrent"] ∧
    (main demoStart).filterMap startedTask = [named (lit "good")] ∧
    (main demoStart).getLast? = some (.ListenAndServe (lit "0.0.0.0:8080")) :=
  have h := startup_recovery demoStart recoveringClient
    [lit "torrent/bad.torrent", lit "torrent/good.torrent"] rfl (Or.inl rfl) rfl rfl
  ⟨h.1, h.2.1.trans (by decide), h.2.2.2.2⟩

/-! ## Where the record is persisted -/

/-- C3, at `--storage-dir=data`: `main` enumerates `data/*.torrent`, while `addTorrent`
creates `torrent/<hex>.torrent`, which is not `data/<hex>.torrent` and which the
pattern does not match. -/
theorem persisted_path_ignores_storage_dir :
    Event.Glob (lit "data/*.torrent") ∈ main { demoStart with storageDir := lit "data" } ∧
    (addTorrent { gotInfo := true, create := fun _ => true } (named (lit "x"))).1.head? =
      some (.GotInfo (named (lit "x"))) ∧
    Event.Create (lit "torrent/0000000000000000000000000000000000000000.torrent") true ∈
      (addTorrent { gotInfo := true, create := fun _ => true } (named (lit "x"))).1 ∧
    (∀ p ok, Event.Create p ok ∈
        (addTorrent { gotInfo := true, create := fun _ => true } (named (lit "x"))).1 →
      p ≠ lit "data" ++ lit "/" ++ (named (lit "x")).InfoHash.HexString ++ lit ".torrent") ∧
    Match (lit "data/*.torrent")
      (lit "torrent/0000000000000000000000000000000000000000.torrent") = false ∧
    Match (lit "data/*.torrent")
      (lit "data/0000000000000000000000000000000000000000.torrent") = true := by
  refine ⟨by decide, by decide, by decide, ?_, by decide, by decide⟩
  intro p ok h
  have hp : p = lit "torrent/0000000000000000000000000000000000000000.torrent" := by
    have hrun : (addTorrent { gotInfo := true, create := fun _ => true } (named (lit "x"))).1 =
        [.GotInfo (named (lit "x")),
          .Create (lit "torrent/0000000000000000000000000000000000000000.torrent") true,
          .WriteMetainfo (named (lit "x"))
            (lit "torrent/0000000000000000000000000000000000000000.torrent"),
          .DownloadAll (named (lit "x")),
          .CloseFile (lit "torrent/0000000000000000000000000000000000000000.torrent")] := by
      decide
    rw [hrun] at h
    simp at h
    exact h.1
  rw [hp]
  decide

end Peerflix
